import Mathlib

/-!
Verification development for the Oxiphant compiler core: a shallow embedding
of `src/codegen.rs` (AST → bytecode generation) and `src/asmgen.rs`
(bytecode → x86-64 assembly text lowering), with theorems about jump-target
well-formedness, literal-pool indexing, state reset behaviour, function
epilogue synthesis, assignment lowering, frame-offset assignment, the
echo value-kind heuristic, lowering totality, foreach rejection, and
float truncation.

Modelling conventions:
* Rust `Vec<T>` is `List T`; pushing is appending a singleton.
* Rust `HashMap<K, V>` is an association list; `insert` conses a new entry
  in front and lookup takes the first match, which gives the same observable
  `get` behaviour as overwriting insertion.
* Rust `i64` is `Int` (the generator and the lowering only move these values
  around, so wrap-around never arises), `usize` is `Nat`.
* Rust `f64` is `ℚ`: every finite `f64` is a rational, and the only
  operation performed on floats (`as i64`) is truncation toward zero with
  saturation at the `i64` bounds, modelled by `f64AsI64`.  The textual
  rendering of a float in an assembly comment is modelled by `toString` on
  `ℚ` (a modelling artefact confined to comment text).
* The assembly output, built line by line with `writeln!`, is a `List String`
  of lines; the returned `String` joins each line with a trailing newline.
* A fallible method on `&mut self` returns its (possibly mutated) state in
  both the success and the error case, since Rust's `?` leaves prior
  mutations in place.
-/

/-- Source location (struct `Location` in `ast.rs`). -/
structure Location where
  file : String
  line : Nat
  column : Nat
deriving DecidableEq, Repr

/-- PHP variable types (enum `Type` in `ast.rs`; renamed since `Type` is a
Lean keyword). -/
inductive PhpType where
  | Integer
  | Float
  | String
  | Boolean
  | Array
  | Null
  | Mixed
deriving DecidableEq, Repr

/-- Binary operators (enum `BinaryOp` in `ast.rs`). -/
inductive BinaryOp where
  | Add
  | Subtract
  | Multiply
  | Divide
  | Modulo
  | Equal
  | NotEqual
  | Less
  | LessEqual
  | Greater
  | GreaterEqual
  | LogicalAnd
  | LogicalOr
  | Assign
  | Concat
  | ArrayAccess
deriving DecidableEq, Repr

/-- Unary operators (enum `UnaryOp` in `ast.rs`). -/
inductive UnaryOp where
  | Negate
  | LogicalNot
deriving DecidableEq, Repr

/-- AST nodes (enum `Node` in `ast.rs`). -/
inductive Node where
  | Program (statements : List Node)
  | ExpressionStmt (expr : Node)
  | BlockStmt (statements : List Node) (location : Location)
  | IfStmt (condition : Node) (then_branch : Node) (else_branch : Option Node)
      (location : Location)
  | WhileStmt (condition : Node) (body : Node) (location : Location)
  | ForStmt (init : Option Node) (condition : Option Node)
      (increment : Option Node) (body : Node) (location : Location)
  | ForeachStmt (array : Node) (value_var : String) (key_var : Option String)
      (body : Node) (location : Location)
  | ReturnStmt (value : Option Node) (location : Location)
  | EchoStmt (expressions : List Node) (location : Location)
  | VarDecl (name : String) (initializer : Option Node) (location : Location)
  | FunctionDecl (name : String) (params : List (String × Option PhpType))
      (body : Node) (location : Location)
  | BinaryExpr (op : BinaryOp) (left : Node) (right : Node) (location : Location)
  | UnaryExpr (op : UnaryOp) (expr : Node) (location : Location)
  | Variable (name : String) (location : Location)
  | FunctionCall (name : String) (args : List Node) (location : Location)
  | IntLiteral (value : Int) (location : Location)
  | FloatLiteral (value : ℚ) (location : Location)
  | StringLiteral (value : String) (location : Location)
  | BooleanLiteral (value : Bool) (location : Location)
  | NullLiteral (location : Location)
  | ArrayLiteral (elements : List (Option Node × Node)) (location : Location)

/-- Bytecode instructions (enum `Instruction` in `codegen.rs`). -/
inductive Instruction where
  | PushInt (value : Int)
  | PushFloat (value : ℚ)
  | PushString (value : String)
  | PushBool (value : Bool)
  | PushNull
  | Pop
  | LoadVar (name : String)
  | StoreVar (name : String)
  | CreateArray
  | ArrayPush
  | ArraySet
  | ArrayGet
  | Add
  | Subtract
  | Multiply
  | Divide
  | Modulo
  | Negate
  | Equal
  | NotEqual
  | Less
  | LessEqual
  | Greater
  | GreaterEqual
  | LogicalAnd
  | LogicalOr
  | LogicalNot
  | Jump (addr : Nat)
  | JumpIfFalse (addr : Nat)
  | JumpIfTrue (addr : Nat)
  | Label (addr : Nat)
  | Call (name : String) (argc : Nat)
  | Return
  | Echo
  | EchoLine
  | Concat
deriving DecidableEq, Repr

/-- A compiled function (struct `Function` in `codegen.rs`; renamed to avoid
shadowing Mathlib's `Function` namespace). -/
structure Func where
  name : String
  param_count : Nat
  instructions : List Instruction
deriving DecidableEq, Repr

/-- Compiler error type (enum `CompilerError` in `error.rs`; the I/O error
payload is modelled as its message string). -/
inductive CompilerError where
  | LexicalError (location : Location) (msg : String)
  | SyntaxError (location : Location) (msg : String)
  | TypeError (location : Location) (msg : String)
  | CodeGenError (message : String)
  | IoError (msg : String)
deriving DecidableEq, Repr

/-- First-match lookup in an association list (the observable behaviour of
`HashMap::get` under the cons-in-front model of `insert`). -/
def lookupA {α : Type} (k : String) : List (String × α) → Option α
  | [] => none
  | (k', v) :: rest => if k' = k then some v else lookupA k rest

/-- The bytecode generator's state (struct `CodeGenerator` in `codegen.rs`). -/
structure CodeGenerator where
  functions : List (String × Func)
  current_instructions : List Instruction
deriving DecidableEq, Repr

/-- `CodeGenerator::new`. -/
def CodeGenerator.new : CodeGenerator :=
  { functions := [], current_instructions := [] }

/-- Result of `generate_node` (`Result<()>` in Rust, together with the
mutated `&mut self` state, which persists also when an error propagates). -/
inductive GenRes where
  | ok (s : CodeGenerator)
  | err (e : CompilerError) (s : CodeGenerator)
deriving DecidableEq, Repr

/-- Push one instruction onto `current_instructions`. -/
def emit (i : Instruction) (s : CodeGenerator) : CodeGenerator :=
  { s with current_instructions := s.current_instructions ++ [i] }

/-- Overwrite the instruction at an index (`self.current_instructions[idx] = v`). -/
def setInstr (idx : Nat) (i : Instruction) (s : CodeGenerator) : CodeGenerator :=
  { s with current_instructions := s.current_instructions.set idx i }

/-- `matches!(i, Instruction::Return)`. -/
def isReturnInstr : Instruction → Bool
  | .Return => true
  | _ => false

/-- The non-assignment binary operators' instruction (the inner `match op` of
the `BinaryExpr` arm; `Assign` is handled before this match is reached, so
its value here is never used — Rust marks it `unreachable!()`). -/
def binOpInstr : BinaryOp → Instruction
  | .Add => .Add
  | .Subtract => .Subtract
  | .Multiply => .Multiply
  | .Divide => .Divide
  | .Modulo => .Modulo
  | .Equal => .Equal
  | .NotEqual => .NotEqual
  | .Less => .Less
  | .LessEqual => .LessEqual
  | .Greater => .Greater
  | .GreaterEqual => .GreaterEqual
  | .LogicalAnd => .LogicalAnd
  | .LogicalOr => .LogicalOr
  | .Concat => .Concat
  | .ArrayAccess => .ArrayGet
  | .Assign => .Pop

/-- The `BinaryOp::Assign` arm's target check:
`if let Node::Variable(name, _) = &**left` — an assignment target is a plain
variable, anything else is an invalid target. -/
def assignTarget : Node → Option String
  | .Variable name _ => some name
  | _ => none

mutual

/-- `CodeGenerator::generate_node` from `codegen.rs`, one case per node kind. -/
def genNode : Node → CodeGenerator → GenRes
  | .Program statements, s => genSeq statements s
  | .ExpressionStmt expr, s =>
    match genNode expr s with
    | .err e s1 => .err e s1
    | .ok s1 => .ok (emit .Pop s1)
  | .BlockStmt statements _, s => genSeq statements s
  | .IfStmt condition then_branch else_branch _, s =>
    match genNode condition s with
    | .err e s1 => .err e s1
    | .ok s1 =>
      let jump_to_else := s1.current_instructions.length
      let s2 := emit (.JumpIfFalse 0) s1
      match genNode then_branch s2 with
      | .err e s3 => .err e s3
      | .ok s3 => genIfEnd else_branch jump_to_else s3
  | .WhileStmt condition body _, s =>
    let loop_start := s.current_instructions.length
    let s1 := emit (.Label loop_start) s
    match genNode condition s1 with
    | .err e s2 => .err e s2
    | .ok s2 =>
      let jump_out := s2.current_instructions.length
      let s3 := emit (.JumpIfFalse 0) s2
      match genNode body s3 with
      | .err e s4 => .err e s4
      | .ok s4 =>
        let s5 := emit (.Jump loop_start) s4
        let after_loop := s5.current_instructions.length
        .ok (emit (.Label after_loop)
          (setInstr jump_out (.JumpIfFalse after_loop) s5))
  | .ForStmt init condition increment body _, s =>
    match genForInit init s with
    | .err e s0 => .err e s0
    | .ok s0 =>
      let loop_start := s0.current_instructions.length
      let s1 := emit (.Label loop_start) s0
      match genForCond condition s1 with
      | .err e s2 => .err e s2
      | .ok s2 =>
        let jump_out := s2.current_instructions.length
        let s3 := emit (.JumpIfFalse 0) s2
        match genNode body s3 with
        | .err e s4 => .err e s4
        | .ok s4 =>
          match genForIncr increment s4 with
          | .err e s5 => .err e s5
          | .ok s5 =>
            let s6 := emit (.Jump loop_start) s5
            let after_loop := s6.current_instructions.length
            .ok (emit (.Label after_loop)
              (setInstr jump_out (.JumpIfFalse after_loop) s6))
  | .ForeachStmt array _ _ _ _, s =>
    match genNode array s with
    | .err e s1 => .err e s1
    | .ok s1 =>
      .err (.CodeGenError "Foreach loops are not fully implemented yet") s1
  | .ReturnStmt value _, s =>
    match genRetVal value s with
    | .err e s1 => .err e s1
    | .ok s1 => .ok (emit .Return s1)
  | .EchoStmt expressions _, s => genEchoArgs expressions s
  | .VarDecl name (some init) _, s =>
    match genNode init s with
    | .err e s1 => .err e s1
    | .ok s1 => .ok (emit (.StoreVar name) s1)
  | .VarDecl name none _, s => .ok (emit (.StoreVar name) (emit .PushNull s))
  | .FunctionDecl name params body _, s =>
    let saved_instructions := s.current_instructions
    let s1 : CodeGenerator := { s with current_instructions := [] }
    match genNode body s1 with
    | .err e s2 => .err e s2
    | .ok s2 =>
      let bodyInstrs :=
        if s2.current_instructions.any isReturnInstr then
          s2.current_instructions
        else
          s2.current_instructions ++ [.PushNull, .Return]
      let function : Func :=
        { name := name, param_count := params.length, instructions := bodyInstrs }
      .ok { functions := (name, function) :: s2.functions,
            current_instructions := saved_instructions }
  | .BinaryExpr .Assign left right _, s =>
    match assignTarget left with
    | some name =>
      match genNode right s with
      | .err e s1 => .err e s1
      | .ok s1 => .ok (emit (.LoadVar name) (emit (.StoreVar name) s1))
    | none =>
      .err (.CodeGenError "Left-hand side of assignment must be a variable") s
  | .BinaryExpr op left right _, s =>
    match genNode left s with
    | .err e s1 => .err e s1
    | .ok s1 =>
      match genNode right s1 with
      | .err e s2 => .err e s2
      | .ok s2 => .ok (emit (binOpInstr op) s2)
  | .UnaryExpr op expr _, s =>
    match genNode expr s with
    | .err e s1 => .err e s1
    | .ok s1 =>
      match op with
      | .Negate => .ok (emit .Negate s1)
      | .LogicalNot => .ok (emit .LogicalNot s1)
  | .Variable name _, s => .ok (emit (.LoadVar name) s)
  | .FunctionCall name args _, s =>
    match genArgsRev args s with
    | .err e s1 => .err e s1
    | .ok s1 => .ok (emit (.Call name args.length) s1)
  | .IntLiteral value _, s => .ok (emit (.PushInt value) s)
  | .FloatLiteral value _, s => .ok (emit (.PushFloat value) s)
  | .StringLiteral value _, s => .ok (emit (.PushString value) s)
  | .BooleanLiteral value _, s => .ok (emit (.PushBool value) s)
  | .NullLiteral _, s => .ok (emit .PushNull s)
  | .ArrayLiteral elements _, s => genElems elements (emit .CreateArray s)

/-- The statement loops of the `Program` and `BlockStmt` arms. -/
def genSeq : List Node → CodeGenerator → GenRes
  | [], s => .ok s
  | n :: rest, s =>
    match genNode n s with
    | .err e s1 => .err e s1
    | .ok s1 => genSeq rest s1

/-- The `FunctionCall` arm's argument loop: `for arg in args.iter().rev()`
generates the last argument first, so the head of the list is generated
after the recursive call on the tail. -/
def genArgsRev : List Node → CodeGenerator → GenRes
  | [], s => .ok s
  | a :: rest, s =>
    match genArgsRev rest s with
    | .err e s1 => .err e s1
    | .ok s1 => genNode a s1

/-- The `EchoStmt` arm's loop: `i == expr_count - 1` (the last expression)
gets `EchoLine`, every earlier one gets `Echo`. -/
def genEchoArgs : List Node → CodeGenerator → GenRes
  | [], s => .ok s
  | [e], s =>
    match genNode e s with
    | .err er s1 => .err er s1
    | .ok s1 => .ok (emit .EchoLine s1)
  | e :: e2 :: rest, s =>
    match genNode e s with
    | .err er s1 => .err er s1
    | .ok s1 => genEchoArgs (e2 :: rest) (emit .Echo s1)

/-- The `ArrayLiteral` arm's element loop. -/
def genElems : List (Option Node × Node) → CodeGenerator → GenRes
  | [], s => .ok s
  | (key, value) :: rest, s =>
    match genNode value s with
    | .err e s1 => .err e s1
    | .ok s1 =>
      match genElemKey key s1 with
      | .err e s2 => .err e s2
      | .ok s2 => genElems rest s2

/-- One element's key handling inside the `ArrayLiteral` loop: with a key,
generate it and `ArraySet`; without, `ArrayPush`. -/
def genElemKey : Option Node → CodeGenerator → GenRes
  | some key_node, s1 =>
    match genNode key_node s1 with
    | .err e s2 => .err e s2
    | .ok s2 => .ok (emit .ArraySet s2)
  | none, s1 => .ok (emit .ArrayPush s1)

/-- The tail of the `IfStmt` arm after the then-branch: patch the conditional
jump and, with an else-branch, emit the jump over it, its label, its code and
the final label. `jump_to_else` is the index of the placeholder
`JumpIfFalse`. -/
def genIfEnd : Option Node → Nat → CodeGenerator → GenRes
  | some els, jump_to_else, s3 =>
    let jump_over_else := s3.current_instructions.length
    let s4 := emit (.Jump 0) s3
    let else_start := s4.current_instructions.length
    let s5 := emit (.Label else_start)
      (setInstr jump_to_else (.JumpIfFalse else_start) s4)
    match genNode els s5 with
    | .err e s6 => .err e s6
    | .ok s6 =>
      let after_else := s6.current_instructions.length
      .ok (emit (.Label after_else)
        (setInstr jump_over_else (.Jump after_else) s6))
  | none, jump_to_else, s3 =>
    let after_if := s3.current_instructions.length
    .ok (emit (.Label after_if)
      (setInstr jump_to_else (.JumpIfFalse after_if) s3))

/-- The `ForStmt` arm's optional initialization. -/
def genForInit : Option Node → CodeGenerator → GenRes
  | some init, s => genNode init s
  | none, s => .ok s

/-- The `ForStmt` arm's condition: absent means `PushBool(true)`. -/
def genForCond : Option Node → CodeGenerator → GenRes
  | some condition, s => genNode condition s
  | none, s => .ok (emit (.PushBool true) s)

/-- The `ForStmt` arm's optional increment, popped after evaluation. -/
def genForIncr : Option Node → CodeGenerator → GenRes
  | some increment, s =>
    match genNode increment s with
    | .err e s1 => .err e s1
    | .ok s1 => .ok (emit .Pop s1)
  | none, s => .ok s

/-- The `ReturnStmt` arm's value: absent means `PushNull`. -/
def genRetVal : Option Node → CodeGenerator → GenRes
  | some value, s => genNode value s
  | none, s => .ok (emit .PushNull s)

end

/-- Result of `CodeGenerator::generate` (`Result<Vec<Instruction>>` with the
mutated generator). -/
inductive GenerateRes where
  | ok (instructions : List Instruction) (g : CodeGenerator)
  | err (e : CompilerError) (g : CodeGenerator)
deriving DecidableEq, Repr

/-- `CodeGenerator::generate`: clears `current_instructions`, generates the
node, and returns a clone of the instruction buffer. -/
def CodeGenerator.generate (g : CodeGenerator) (node : Node) : GenerateRes :=
  let g0 : CodeGenerator := { g with current_instructions := [] }
  match genNode node g0 with
  | .ok g1 => .ok g1.current_instructions g1
  | .err e g1 => .err e g1

/-- The generator state after a `generate` call, whether it succeeded or not. -/
def genAfter (g : CodeGenerator) (t : Node) : CodeGenerator :=
  match g.generate t with
  | .ok _ g' => g'
  | .err _ g' => g'

/-! Unfolding equations for the mutual recursion, used in place of the
auto-generated equation lemmas (which Lean cannot produce for this nested
recursion); each is definitional. -/

theorem genNode_program (l : List Node) (s : CodeGenerator) :
    genNode (.Program l) s = genSeq l s := rfl

theorem genNode_exprStmt (e : Node) (s : CodeGenerator) :
    genNode (.ExpressionStmt e) s =
      (match genNode e s with
       | .err er s1 => .err er s1
       | .ok s1 => .ok (emit .Pop s1)) := rfl

theorem genNode_block (l : List Node) (loc : Location) (s : CodeGenerator) :
    genNode (.BlockStmt l loc) s = genSeq l s := rfl

theorem genNode_if (c tb : Node) (eb : Option Node) (loc : Location)
    (s : CodeGenerator) :
    genNode (.IfStmt c tb eb loc) s =
      (match genNode c s with
       | .err e s1 => .err e s1
       | .ok s1 =>
         match genNode tb (emit (.JumpIfFalse 0) s1) with
         | .err e s3 => .err e s3
         | .ok s3 => genIfEnd eb s1.current_instructions.length s3) := rfl

theorem genNode_while (c b : Node) (loc : Location) (s : CodeGenerator) :
    genNode (.WhileStmt c b loc) s =
      (match genNode c (emit (.Label s.current_instructions.length) s) with
       | .err e s2 => .err e s2
       | .ok s2 =>
         match genNode b (emit (.JumpIfFalse 0) s2) with
         | .err e s4 => .err e s4
         | .ok s4 =>
           let s5 := emit (.Jump s.current_instructions.length) s4
           .ok (emit (.Label s5.current_instructions.length)
             (setInstr s2.current_instructions.length
               (.JumpIfFalse s5.current_instructions.length) s5))) := rfl

theorem genNode_for (init cond incr : Option Node) (b : Node) (loc : Location)
    (s : CodeGenerator) :
    genNode (.ForStmt init cond incr b loc) s =
      (match genForInit init s with
       | .err e s0 => .err e s0
       | .ok s0 =>
         match genForCond cond (emit (.Label s0.current_instructions.length) s0) with
         | .err e s2 => .err e s2
         | .ok s2 =>
           match genNode b (emit (.JumpIfFalse 0) s2) with
           | .err e s4 => .err e s4
           | .ok s4 =>
             match genForIncr incr s4 with
             | .err e s5 => .err e s5
             | .ok s5 =>
               let s6 := emit (.Jump s0.current_instructions.length) s5
               .ok (emit (.Label s6.current_instructions.length)
                 (setInstr s2.current_instructions.length
                   (.JumpIfFalse s6.current_instructions.length) s6))) := rfl

theorem genNode_foreach (a : Node) (vv : String) (kv : Option String) (b : Node)
    (loc : Location) (s : CodeGenerator) :
    genNode (.ForeachStmt a vv kv b loc) s =
      (match genNode a s with
       | .err e s1 => .err e s1
       | .ok s1 =>
         .err (.CodeGenError "Foreach loops are not fully implemented yet") s1) := rfl

theorem genNode_returnStmt (v : Option Node) (loc : Location) (s : CodeGenerator) :
    genNode (.ReturnStmt v loc) s =
      (match genRetVal v s with
       | .err e s1 => .err e s1
       | .ok s1 => .ok (emit .Return s1)) := rfl

theorem genNode_echo (l : List Node) (loc : Location) (s : CodeGenerator) :
    genNode (.EchoStmt l loc) s = genEchoArgs l s := rfl

theorem genNode_varDecl_some (nm : String) (i : Node) (loc : Location)
    (s : CodeGenerator) :
    genNode (.VarDecl nm (some i) loc) s =
      (match genNode i s with
       | .err e s1 => .err e s1
       | .ok s1 => .ok (emit (.StoreVar nm) s1)) := rfl

theorem genNode_varDecl_none (nm : String) (loc : Location) (s : CodeGenerator) :
    genNode (.VarDecl nm none loc) s =
      .ok (emit (.StoreVar nm) (emit .PushNull s)) := rfl

theorem genNode_funcDecl (nm : String) (params : List (String × Option PhpType))
    (b : Node) (loc : Location) (s : CodeGenerator) :
    genNode (.FunctionDecl nm params b loc) s =
      (match genNode b { s with current_instructions := [] } with
       | .err e s2 => .err e s2
       | .ok s2 =>
         .ok { functions :=
                 (nm,
                   { name := nm
                     param_count := params.length
                     instructions :=
                       if s2.current_instructions.any isReturnInstr then
                         s2.current_instructions
                       else
                         s2.current_instructions ++ [.PushNull, .Return] }) :: s2.functions
               current_instructions := s.current_instructions }) := rfl

theorem genNode_assign (l r : Node) (loc : Location) (s : CodeGenerator) :
    genNode (.BinaryExpr .Assign l r loc) s =
      (match assignTarget l with
       | some name =>
         match genNode r s with
         | .err e s1 => .err e s1
         | .ok s1 => .ok (emit (.LoadVar name) (emit (.StoreVar name) s1))
       | none =>
         .err (.CodeGenError "Left-hand side of assignment must be a variable") s) := rfl

theorem genNode_binary (op : BinaryOp) (l r : Node) (loc : Location)
    (s : CodeGenerator) (hop : op ≠ .Assign) :
    genNode (.BinaryExpr op l r loc) s =
      (match genNode l s with
       | .err e s1 => .err e s1
       | .ok s1 =>
         match genNode r s1 with
         | .err e s2 => .err e s2
         | .ok s2 => .ok (emit (binOpInstr op) s2)) := by
  cases op <;> first | rfl | exact absurd rfl hop

theorem genNode_unary (op : UnaryOp) (e : Node) (loc : Location)
    (s : CodeGenerator) :
    genNode (.UnaryExpr op e loc) s =
      (match genNode e s with
       | .err er s1 => .err er s1
       | .ok s1 =>
         match op with
         | .Negate => .ok (emit .Negate s1)
         | .LogicalNot => .ok (emit .LogicalNot s1)) := by
  cases op <;> rfl

theorem genNode_variable (nm : String) (loc : Location) (s : CodeGenerator) :
    genNode (.Variable nm loc) s = .ok (emit (.LoadVar nm) s) := rfl

theorem genNode_call (nm : String) (args : List Node) (loc : Location)
    (s : CodeGenerator) :
    genNode (.FunctionCall nm args loc) s =
      (match genArgsRev args s with
       | .err e s1 => .err e s1
       | .ok s1 => .ok (emit (.Call nm args.length) s1)) := rfl

theorem genNode_intLit (v : Int) (loc : Location) (s : CodeGenerator) :
    genNode (.IntLiteral v loc) s = .ok (emit (.PushInt v) s) := rfl

theorem genNode_floatLit (v : ℚ) (loc : Location) (s : CodeGenerator) :
    genNode (.FloatLiteral v loc) s = .ok (emit (.PushFloat v) s) := rfl

theorem genNode_strLit (v : String) (loc : Location) (s : CodeGenerator) :
    genNode (.StringLiteral v loc) s = .ok (emit (.PushString v) s) := rfl

theorem genNode_boolLit (v : Bool) (loc : Location) (s : CodeGenerator) :
    genNode (.BooleanLiteral v loc) s = .ok (emit (.PushBool v) s) := rfl

theorem genNode_nullLit (loc : Location) (s : CodeGenerator) :
    genNode (.NullLiteral loc) s = .ok (emit .PushNull s) := rfl

theorem genNode_arrayLit (els : List (Option Node × Node)) (loc : Location)
    (s : CodeGenerator) :
    genNode (.ArrayLiteral els loc) s = genElems els (emit .CreateArray s) := rfl

theorem genSeq_nil (s : CodeGenerator) : genSeq [] s = .ok s := rfl

theorem genSeq_cons (n : Node) (rest : List Node) (s : CodeGenerator) :
    genSeq (n :: rest) s =
      (match genNode n s with
       | .err e s1 => .err e s1
       | .ok s1 => genSeq rest s1) := rfl

theorem genArgsRev_nil (s : CodeGenerator) : genArgsRev [] s = .ok s := rfl

theorem genArgsRev_cons (a : Node) (rest : List Node) (s : CodeGenerator) :
    genArgsRev (a :: rest) s =
      (match genArgsRev rest s with
       | .err e s1 => .err e s1
       | .ok s1 => genNode a s1) := rfl

theorem genEchoArgs_nil (s : CodeGenerator) : genEchoArgs [] s = .ok s := rfl

theorem genEchoArgs_one (e : Node) (s : CodeGenerator) :
    genEchoArgs [e] s =
      (match genNode e s with
       | .err er s1 => .err er s1
       | .ok s1 => .ok (emit .EchoLine s1)) := rfl

theorem genEchoArgs_cons (e e2 : Node) (rest : List Node) (s : CodeGenerator) :
    genEchoArgs (e :: e2 :: rest) s =
      (match genNode e s with
       | .err er s1 => .err er s1
       | .ok s1 => genEchoArgs (e2 :: rest) (emit .Echo s1)) := rfl

theorem genElems_nil (s : CodeGenerator) : genElems [] s = .ok s := rfl

theorem genElems_cons (k : Option Node) (v : Node)
    (rest : List (Option Node × Node)) (s : CodeGenerator) :
    genElems ((k, v) :: rest) s =
      (match genNode v s with
       | .err e s1 => .err e s1
       | .ok s1 =>
         match genElemKey k s1 with
         | .err e s2 => .err e s2
         | .ok s2 => genElems rest s2) := rfl

theorem genElemKey_some (kn : Node) (s1 : CodeGenerator) :
    genElemKey (some kn) s1 =
      (match genNode kn s1 with
       | .err e s2 => .err e s2
       | .ok s2 => .ok (emit .ArraySet s2)) := rfl

theorem genElemKey_none (s1 : CodeGenerator) :
    genElemKey none s1 = .ok (emit .ArrayPush s1) := rfl

theorem genIfEnd_some (els : Node) (jte : Nat) (s3 : CodeGenerator) :
    genIfEnd (some els) jte s3 =
      (let s4 := emit (.Jump 0) s3
       let else_start := s4.current_instructions.length
       match genNode els
           (emit (.Label else_start) (setInstr jte (.JumpIfFalse else_start) s4)) with
       | .err e s6 => .err e s6
       | .ok s6 =>
         .ok (emit (.Label s6.current_instructions.length)
           (setInstr s3.current_instructions.length
             (.Jump s6.current_instructions.length) s6))) := rfl

theorem genIfEnd_none (jte : Nat) (s3 : CodeGenerator) :
    genIfEnd none jte s3 =
      .ok (emit (.Label s3.current_instructions.length)
        (setInstr jte (.JumpIfFalse s3.current_instructions.length) s3)) := rfl

theorem genForInit_some (i : Node) (s : CodeGenerator) :
    genForInit (some i) s = genNode i s := rfl

theorem genForInit_none (s : CodeGenerator) : genForInit none s = .ok s := rfl

theorem genForCond_some (c : Node) (s : CodeGenerator) :
    genForCond (some c) s = genNode c s := rfl

theorem genForCond_none (s : CodeGenerator) :
    genForCond none s = .ok (emit (.PushBool true) s) := rfl

theorem genForIncr_some (i : Node) (s : CodeGenerator) :
    genForIncr (some i) s =
      (match genNode i s with
       | .err e s1 => .err e s1
       | .ok s1 => .ok (emit .Pop s1)) := rfl

theorem genForIncr_none (s : CodeGenerator) : genForIncr none s = .ok s := rfl

theorem genRetVal_some (v : Node) (s : CodeGenerator) :
    genRetVal (some v) s = genNode v s := rfl

theorem genRetVal_none (s : CodeGenerator) :
    genRetVal none s = .ok (emit .PushNull s) := rfl

/-! The native lowering pass, `src/asmgen.rs`. -/

/-- Rust's `*value as i64` applied to an `f64` (modelled as a rational):
truncation toward zero, saturating at the `i64` bounds. -/
def f64AsI64 (q : ℚ) : Int :=
  let t : Int := if 0 ≤ q then Rat.floor q else Rat.ceil q
  if t < -(2 ^ 63) then -(2 ^ 63) else if t > 2 ^ 63 - 1 then 2 ^ 63 - 1 else t

/-- `#[derive(Debug)]` rendering of an instruction, used by the
`format!("{:?}", ...)` of the unimplemented-instruction fallback arm (the
float case renders the rational model). -/
def instrDebug : Instruction → String
  | .PushInt v => "PushInt(" ++ toString v ++ ")"
  | .PushFloat v => "PushFloat(" ++ toString v ++ ")"
  | .PushString v => "PushString(\"" ++ v ++ "\")"
  | .PushBool v => "PushBool(" ++ toString v ++ ")"
  | .PushNull => "PushNull"
  | .Pop => "Pop"
  | .LoadVar n => "LoadVar(\"" ++ n ++ "\")"
  | .StoreVar n => "StoreVar(\"" ++ n ++ "\")"
  | .CreateArray => "CreateArray"
  | .ArrayPush => "ArrayPush"
  | .ArraySet => "ArraySet"
  | .ArrayGet => "ArrayGet"
  | .Add => "Add"
  | .Subtract => "Subtract"
  | .Multiply => "Multiply"
  | .Divide => "Divide"
  | .Modulo => "Modulo"
  | .Negate => "Negate"
  | .Equal => "Equal"
  | .NotEqual => "NotEqual"
  | .Less => "Less"
  | .LessEqual => "LessEqual"
  | .Greater => "Greater"
  | .GreaterEqual => "GreaterEqual"
  | .LogicalAnd => "LogicalAnd"
  | .LogicalOr => "LogicalOr"
  | .LogicalNot => "LogicalNot"
  | .Jump a => "Jump(" ++ toString a ++ ")"
  | .JumpIfFalse a => "JumpIfFalse(" ++ toString a ++ ")"
  | .JumpIfTrue a => "JumpIfTrue(" ++ toString a ++ ")"
  | .Label a => "Label(" ++ toString a ++ ")"
  | .Call n c => "Call(\"" ++ n ++ "\", " ++ toString c ++ ")"
  | .Return => "Return"
  | .Echo => "Echo"
  | .EchoLine => "EchoLine"
  | .Concat => "Concat"

/-- The assembly generator's state (struct `AsmGenerator` in `asmgen.rs`);
`asm_code` holds the emitted lines, one per `writeln!`, and `vars` is the
Rust field `variables` (renamed: `variables` is a reserved Lean token). -/
structure AsmGenerator where
  asm_code : List String
  string_literals : List String
  label_counter : Nat
  vars : List (String × Nat)
  var_counter : Nat
deriving DecidableEq, Repr

/-- `AsmGenerator::new` (also the state produced by `generate`'s reset). -/
def AsmGenerator.new : AsmGenerator :=
  { asm_code := [], string_literals := [], label_counter := 0,
    vars := [], var_counter := 0 }

/-- Append emitted lines (a run of `writeln!` calls). -/
def wl (g : AsmGenerator) (lines : List String) : AsmGenerator :=
  { g with asm_code := g.asm_code ++ lines }

/-- `AsmGenerator::get_var_offset`: look the name up; if absent, allocate the
next 8-byte slot at `8 + var_counter * 8` and remember it. -/
def get_var_offset (g : AsmGenerator) (name : String) : Nat × AsmGenerator :=
  match lookupA name g.vars with
  | some offset => (offset, g)
  | none =>
    let offset := 8 + g.var_counter * 8
    (offset, { g with vars := (name, offset) :: g.vars,
                      var_counter := g.var_counter + 1 })

/-- `AsmGenerator::process_instruction`, arm for arm; `new_label` exists in
the Rust source but is never called from any arm (the echo and concat arms
read and bump `label_counter` directly), so it is not modelled. -/
def process_instruction (g : AsmGenerator) : Instruction → AsmGenerator
  | .PushInt value =>
    wl g ["    # PushInt(" ++ toString value ++ ")",
          "    mov rax, " ++ toString value,
          "    push rax"]
  | .PushFloat value =>
    wl g ["    # PushFloat(" ++ toString value ++ ")",
          "    mov rax, " ++ toString (f64AsI64 value),
          "    push rax"]
  | .PushString value =>
    let str_index := g.string_literals.length
    { g with
      asm_code := g.asm_code ++
        ["    # PushString(\"" ++ value ++ "\")",
         "    lea rax, [rip + str_" ++ toString str_index ++ "]",
         "    push rax"]
      string_literals := g.string_literals ++ [value] }
  | .PushBool value =>
    wl g ["    # PushBool(" ++ toString value ++ ")",
          "    mov rax, " ++ (if value then "1" else "0"),
          "    push rax"]
  | .PushNull =>
    wl g ["    # PushNull", "    mov rax, 0", "    push rax"]
  | .Pop =>
    wl g ["    # Pop", "    add rsp, 8"]
  | .CreateArray =>
    wl g ["    # CreateArray",
          "    sub rsp, 64  # Allocate space for array",
          "    mov rax, rsp  # Store array pointer",
          "    push rax"]
  | .ArrayPush =>
    wl g ["    # ArrayPush",
          "    pop rax  # Value to push",
          "    pop rdx  # Array pointer",
          "    mov [rdx], rax  # Store value in array",
          "    push rdx  # Push array pointer back"]
  | .ArraySet =>
    wl g ["    # ArraySet",
          "    pop rdx  # Key",
          "    pop rax  # Value",
          "    pop rcx  # Array pointer",
          "    mov [rcx + rdx * 8], rax  # Store value at key offset",
          "    push rcx  # Push array pointer back"]
  | .ArrayGet =>
    wl g ["    # ArrayGet",
          "    pop rdx  # Key",
          "    pop rcx  # Array pointer",
          "    mov rax, [rcx + rdx * 8]  # Load value at key offset",
          "    push rax  # Push value"]
  | .Add =>
    wl g ["    # Add",
          "    pop rax  # Second operand",
          "    pop rbx  # First operand",
          "    add rax, rbx",
          "    push rax"]
  | .Subtract =>
    wl g ["    # Subtract",
          "    pop rax  # Second operand",
          "    pop rbx  # First operand",
          "    sub rbx, rax",
          "    push rbx"]
  | .Multiply =>
    wl g ["    # Multiply",
          "    pop rax  # Second operand",
          "    pop rbx  # First operand",
          "    imul rbx",
          "    push rax"]
  | .Divide =>
    wl g ["    # Divide",
          "    pop rcx  # Second operand",
          "    pop rax  # First operand",
          "    cqo  # Sign-extend RAX into RDX:RAX",
          "    idiv rcx",
          "    push rax"]
  | .Modulo =>
    wl g ["    # Modulo",
          "    pop rcx  # Second operand",
          "    pop rax  # First operand",
          "    cqo  # Sign-extend RAX into RDX:RAX",
          "    idiv rcx",
          "    push rdx  # Remainder is in RDX"]
  | .Negate =>
    wl g ["    # Negate", "    pop rax  # Operand", "    neg rax", "    push rax"]
  | .Echo =>
    let c := g.label_counter
    { g with
      asm_code := g.asm_code ++
        ["    # Echo",
         "    pop rdx  # Value to print (second arg)",
         "    # Check if it's a string or an integer",
         "    cmp rdx, 100000  # Assume values < 100000 are integers",
         "    jge .print_string_" ++ toString c,
         "    # Print as integer",
         "    lea rcx, [rip + fmt_int]  # Format string (first arg)",
         "    mov rax, 0",
         "    call printf",
         "    jmp .echo_done_" ++ toString c,
         ".print_string_" ++ toString c ++ ":",
         "    lea rcx, [rip + fmt_str]  # Format string (first arg)",
         "    mov rax, 0",
         "    call printf",
         ".echo_done_" ++ toString c ++ ":"]
      label_counter := c + 1 }
  | .EchoLine =>
    let c := g.label_counter
    { g with
      asm_code := g.asm_code ++
        ["    # EchoLine",
         "    pop rdx  # Value to print (second arg)",
         "    # Check if it's a string or an integer",
         "    cmp rdx, 100000  # Assume values < 100000 are integers",
         "    jge .print_string_line_" ++ toString c,
         "    # Print as integer",
         "    lea rcx, [rip + fmt_int]  # Format string (first arg)",
         "    mov rax, 0",
         "    call printf",
         "    jmp .echo_line_done_" ++ toString c,
         ".print_string_line_" ++ toString c ++ ":",
         "    lea rcx, [rip + fmt_str]  # Format string (first arg)",
         "    mov rax, 0",
         "    call printf",
         ".echo_line_done_" ++ toString c ++ ":",
         "    mov rcx, 10  # '\\n' (first arg)",
         "    call putchar"]
      label_counter := c + 1 }
  | .Concat =>
    let c := g.label_counter
    let str_index := g.string_literals.length
    { g with
      asm_code := g.asm_code ++
        ["    # Concat",
         "    pop rdx  # Second operand (string to append)",
         "    pop rcx  # First operand (destination string)",
         "    sub rsp, 512  # Reserve space for concatenated string",
         "    mov r8, rsp  # Store buffer address",
         "    mov r9, rcx  # Source (first string)",
         "    mov r10, r8  # Destination (buffer)",
         ".copy_first_" ++ toString c ++ ":",
         "    mov al, [r9]  # Load character",
         "    mov [r10], al  # Store character",
         "    inc r9  # Next source character",
         "    inc r10  # Next destination character",
         "    test al, al  # Check for null terminator",
         "    jnz .copy_first_" ++ toString c,
         "    dec r10  # Back up to null terminator",
         "    mov r9, rdx  # Source (second string)",
         ".copy_second_" ++ toString c ++ ":",
         "    mov al, [r9]  # Load character",
         "    mov [r10], al  # Store character",
         "    inc r9  # Next source character",
         "    inc r10  # Next destination character",
         "    test al, al  # Check for null terminator",
         "    jnz .copy_second_" ++ toString c,
         "    # Create a new string literal for the concatenated string",
         "    lea rax, [rip + str_" ++ toString str_index ++ "]  # Get address of string literal",
         "    add rsp, 512  # Restore stack",
         "    push rax  # Push result"]
      string_literals := g.string_literals ++ ["<concatenated string>"]
      label_counter := c + 1 }
  | .LoadVar name =>
    let p := get_var_offset g name
    wl p.2 ["    # LoadVar(\"" ++ name ++ "\")",
            "    mov rax, [rbp - " ++ toString p.1 ++ "]  # Load variable",
            "    push rax"]
  | .StoreVar name =>
    let p := get_var_offset g name
    wl p.2 ["    # StoreVar(\"" ++ name ++ "\")",
            "    pop rax  # Value to store",
            "    mov [rbp - " ++ toString p.1 ++ "], rax  # Store variable",
            "    push rax"]
  | .Greater =>
    wl g ["    # Greater",
          "    pop rax  # Second operand",
          "    pop rbx  # First operand",
          "    cmp rbx, rax",
          "    setg al",
          "    movzx rax, al",
          "    push rax"]
  | .Less =>
    wl g ["    # Less",
          "    pop rax  # Second operand",
          "    pop rbx  # First operand",
          "    cmp rbx, rax",
          "    setl al",
          "    movzx rax, al",
          "    push rax"]
  | .LessEqual =>
    wl g ["    # LessEqual",
          "    pop rax  # Second operand",
          "    pop rbx  # First operand",
          "    cmp rbx, rax",
          "    setle al",
          "    movzx rax, al",
          "    push rax"]
  | .Equal =>
    wl g ["    # Equal",
          "    pop rax  # Second operand",
          "    pop rbx  # First operand",
          "    cmp rbx, rax",
          "    sete al",
          "    movzx rax, al",
          "    push rax"]
  | .NotEqual =>
    wl g ["    # NotEqual",
          "    pop rax  # Second operand",
          "    pop rbx  # First operand",
          "    cmp rbx, rax",
          "    setne al",
          "    movzx rax, al",
          "    push rax"]
  | .GreaterEqual =>
    wl g ["    # GreaterEqual",
          "    pop rax  # Second operand",
          "    pop rbx  # First operand",
          "    cmp rbx, rax",
          "    setge al",
          "    movzx rax, al",
          "    push rax"]
  | .LogicalAnd =>
    wl g ["    # LogicalAnd",
          "    pop rax  # Second operand",
          "    pop rbx  # First operand",
          "    and rax, rbx",
          "    cmp rax, 0",
          "    setne al",
          "    movzx rax, al",
          "    push rax"]
  | .LogicalOr =>
    wl g ["    # LogicalOr",
          "    pop rax  # Second operand",
          "    pop rbx  # First operand",
          "    or rax, rbx",
          "    cmp rax, 0",
          "    setne al",
          "    movzx rax, al",
          "    push rax"]
  | .LogicalNot =>
    wl g ["    # LogicalNot",
          "    pop rax  # Operand",
          "    cmp rax, 0",
          "    sete al",
          "    movzx rax, al",
          "    push rax"]
  | .JumpIfFalse addr =>
    wl g ["    # JumpIfFalse(" ++ toString addr ++ ")",
          "    pop rax  # Condition",
          "    cmp rax, 0",
          "    je .label_" ++ toString addr]
  | .Jump addr =>
    wl g ["    # Jump(" ++ toString addr ++ ")",
          "    jmp .label_" ++ toString addr]
  | .JumpIfTrue addr =>
    wl g ["    # JumpIfTrue(" ++ toString addr ++ ")",
          "    pop rax  # Condition",
          "    cmp rax, 0",
          "    jne .label_" ++ toString addr]
  | .Label addr =>
    wl g [".label_" ++ toString addr ++ ":"]
  | i =>
    wl g ["    # Unimplemented: " ++ instrDebug i]

/-- The lines of `add_header` (one entry per `writeln!`, including the final
empty line). -/
def headerLines : List String :=
  [".intel_syntax noprefix",
   ".text",
   ".extern printf",
   ".extern putchar",
   ".extern sprintf",
   ".global main",
   "main:",
   "    push rbp",
   "    mov rbp, rsp",
   "    sub rsp, 256  # Reserve stack space for variables",
   "    sub rsp, 32   # Shadow space for Windows x64",
   ""]

/-- The lines of `add_footer`. -/
def footerLines : List String :=
  ["    # Program exit",
   "    add rsp, 32   # Restore shadow space",
   "    mov rax, 0  # Return 0",
   "    leave",
   "    ret"]

/-- The per-entry loop of `add_string_literals`
(`for (i, s) in string_literals.iter().enumerate()`). -/
def litEntryLines : Nat → List String → List String
  | _, [] => []
  | i, strVal :: rest =>
    ["str_" ++ toString i ++ ":",
     "    .string \"" ++ strVal.replace "\"" "\\\"" ++ "\""] ++
      litEntryLines (i + 1) rest

/-- The lines of `add_string_literals`: the `.data` directive, the three
printf format strings, and one labelled entry per pool element. -/
def stringLitLines (lits : List String) : List String :=
  [".data",
   "fmt_str:",
   "    .string \"%s\"",
   "fmt_int:",
   "    .string \"%d\"",
   "fmt_float:",
   "    .string \"%f\""] ++ litEntryLines 0 lits

/-- The instruction loop of `AsmGenerator::generate`. -/
def processList (g : AsmGenerator) : List Instruction → AsmGenerator
  | [] => g
  | i :: rest => processList (process_instruction g i) rest

/-- The state right after `generate`'s reset and `add_header`. -/
def headerState : AsmGenerator :=
  { AsmGenerator.new with asm_code := headerLines }

/-- The state after `generate`'s reset, `add_header` and the instruction
loop, before the data section and footer are appended. -/
def asmRun (instructions : List Instruction) : AsmGenerator :=
  processList headerState instructions

/-- Join emitted lines into the returned assembly text (each `writeln!`
terminates its line with a newline). -/
def renderLines (lines : List String) : String :=
  String.join (lines.map (fun l => l ++ "\n"))

/-- The full line list produced by one `AsmGenerator::generate` call:
header, lowered instructions, string-literal data section, footer. -/
def asmGenLines (instructions : List Instruction) : List String :=
  (asmRun instructions).asm_code ++
    stringLitLines (asmRun instructions).string_literals ++ footerLines

/-- `AsmGenerator::generate`: clear all state, emit header, process every
instruction, emit the data section and footer, and return the text (with
the final generator state; the initial state is discarded by the reset). -/
def AsmGenerator.generate (_g : AsmGenerator) (instructions : List Instruction) :
    String × AsmGenerator :=
  let g2 := asmRun instructions
  let g4 := { g2 with asm_code := asmGenLines instructions }
  (renderLines g4.asm_code, g4)

/-! Definitions used by the claim statements. -/

/-- A fixed location for concrete test inputs (locations are carried by the
AST but never read by the generator). -/
def L0 : Location := { file := "", line := 0, column := 0 }

/-- The jump target of an instruction, when it has one. -/
def targetOf : Instruction → Option Nat
  | .Jump t => some t
  | .JumpIfFalse t => some t
  | .JumpIfTrue t => some t
  | _ => none

/-- Executable jump-target well-formedness of one instruction sequence:
every jump's target index carries a `Label` of that same index, or is the
one-past-end index. -/
def jtOk (code : List Instruction) : Bool :=
  code.all fun i =>
    match targetOf i with
    | none => true
    | some t => decide (code[t]? = some (.Label t)) || decide (t = code.length)

/-- Self-containedness of a generated slice: a slice `Δ` generated starting
at absolute index `b` has every jump target inside itself, landing on a
`Label` that carries the target's absolute index. -/
def SC (b : Nat) (Δ : List Instruction) : Prop :=
  ∀ (p t : Nat) (i : Instruction), Δ[p]? = some i → targetOf i = some t →
    b ≤ t ∧ Δ[t - b]? = some (.Label t)

/-- Every stored function's instruction sequence is self-contained from
index 0. -/
def funcsSC (F : List (String × Func)) : Prop :=
  ∀ p ∈ F, SC 0 p.2.instructions

/-- One `generate_node` step extends `current_instructions` by a
self-contained slice and preserves function-table well-formedness. -/
def ExtOk (s s' : CodeGenerator) : Prop :=
  (∃ Δ, s'.current_instructions = s.current_instructions ++ Δ ∧
     SC s.current_instructions.length Δ) ∧
  (funcsSC s.functions → funcsSC s'.functions)

/-- The literal-pool entries appended while lowering a sequence: one entry
per `PushString` (its value) and one per `Concat` (the placeholder), in
instruction order. -/
def specLits : List Instruction → List String
  | [] => []
  | .PushString v :: rest => v :: specLits rest
  | .Concat :: rest => "<concatenated string>" :: specLits rest
  | _ :: rest => specLits rest

/-- Whether an instruction is a `PushString`. -/
def isPushStringInstr : Instruction → Bool
  | .PushString _ => true
  | _ => false

/-- Whether an instruction is a `Concat`. -/
def isConcatInstr : Instruction → Bool
  | .Concat => true
  | _ => false

/-- The variable names referenced by `LoadVar`/`StoreVar`, in instruction
order, with multiplicity. -/
def varNames : List Instruction → List String
  | [] => []
  | .LoadVar n :: rest => n :: varNames rest
  | .StoreVar n :: rest => n :: varNames rest
  | _ :: rest => varNames rest

/-- The names of `l` not in `seen`, in order of first occurrence. -/
def firstOccurAux (seen : List String) : List String → List String
  | [] => []
  | a :: l =>
    if a ∈ seen then firstOccurAux seen l
    else a :: firstOccurAux (a :: seen) l

/-- The distinct names of `l` in order of first occurrence. -/
def firstOccur (l : List String) : List String := firstOccurAux [] l

/-- Frame offsets for a list of distinct names: the `k`-th name (0-based,
counting from `k0`) gets byte offset `8 + k * 8`. -/
def offsetsOf : List String → Nat → List (String × Nat)
  | [], _ => []
  | n :: rest, k => (n, 8 + k * 8) :: offsetsOf rest (k + 1)

/-- The lines emitted for one `Echo` when the label counter is `c`. -/
def echoLines (c : Nat) : List String :=
  ["    # Echo",
   "    pop rdx  # Value to print (second arg)",
   "    # Check if it's a string or an integer",
   "    cmp rdx, 100000  # Assume values < 100000 are integers",
   "    jge .print_string_" ++ toString c,
   "    # Print as integer",
   "    lea rcx, [rip + fmt_int]  # Format string (first arg)",
   "    mov rax, 0",
   "    call printf",
   "    jmp .echo_done_" ++ toString c,
   ".print_string_" ++ toString c ++ ":",
   "    lea rcx, [rip + fmt_str]  # Format string (first arg)",
   "    mov rax, 0",
   "    call printf",
   ".echo_done_" ++ toString c ++ ":"]

/-- The lines emitted for one `EchoLine` when the label counter is `c`. -/
def echoLineLines (c : Nat) : List String :=
  ["    # EchoLine",
   "    pop rdx  # Value to print (second arg)",
   "    # Check if it's a string or an integer",
   "    cmp rdx, 100000  # Assume values < 100000 are integers",
   "    jge .print_string_line_" ++ toString c,
   "    # Print as integer",
   "    lea rcx, [rip + fmt_int]  # Format string (first arg)",
   "    mov rax, 0",
   "    call printf",
   "    jmp .echo_line_done_" ++ toString c,
   ".print_string_line_" ++ toString c ++ ":",
   "    lea rcx, [rip + fmt_str]  # Format string (first arg)",
   "    mov rax, 0",
   "    call printf",
   ".echo_line_done_" ++ toString c ++ ":",
   "    mov rcx, 10  # '\\n' (first arg)",
   "    call putchar"]

/-! Small helper lemmas. -/

/-- `isReturnInstr` recognises exactly `Return`. -/
theorem isReturnInstr_eq (i : Instruction) : isReturnInstr i = true ↔ i = .Return := by
  cases i <;> simp [isReturnInstr]

/-- Dropping past an appended prefix. -/
theorem drop_len_append {α : Type} (X Y : List α) (k : Nat) :
    (X ++ Y).drop (X.length + k) = Y.drop k := by
  induction X with
  | nil => simp
  | cons x X ih =>
    simp only [List.cons_append, List.length_cons, Nat.succ_add, List.drop_succ_cons]
    exact ih

/-- `get_var_offset` touches only the frame table and its counter. -/
theorem get_var_offset_fields (g : AsmGenerator) (n : String) :
    (get_var_offset g n).2.asm_code = g.asm_code ∧
    (get_var_offset g n).2.string_literals = g.string_literals ∧
    (get_var_offset g n).2.label_counter = g.label_counter := by
  cases h : lookupA n g.vars <;> simp [get_var_offset, h]

/-- Every instruction's lowering only appends to the emitted lines. -/
theorem process_asm_append (g : AsmGenerator) (i : Instruction) :
    ∃ new, (process_instruction g i).asm_code = g.asm_code ++ new := by
  cases i with
  | LoadVar n =>
    refine ⟨["    # LoadVar(\"" ++ n ++ "\")",
      "    mov rax, [rbp - " ++ toString (get_var_offset g n).1 ++ "]  # Load variable",
      "    push rax"], ?_⟩
    show (get_var_offset g n).2.asm_code ++ _ = _
    rw [(get_var_offset_fields g n).1]
  | StoreVar n =>
    refine ⟨["    # StoreVar(\"" ++ n ++ "\")",
      "    pop rax  # Value to store",
      "    mov [rbp - " ++ toString (get_var_offset g n).1 ++ "], rax  # Store variable",
      "    push rax"], ?_⟩
    show (get_var_offset g n).2.asm_code ++ _ = _
    rw [(get_var_offset_fields g n).1]
  | _ => exact ⟨_, rfl⟩

/-- The instruction loop only appends to the emitted lines. -/
theorem processList_asm (l : List Instruction) (g : AsmGenerator) :
    ∃ new, (processList g l).asm_code = g.asm_code ++ new := by
  induction l generalizing g with
  | nil => exact ⟨[], by simp [processList]⟩
  | cons i rest ih =>
    obtain ⟨n1, h1⟩ := process_asm_append g i
    obtain ⟨n2, h2⟩ := ih (process_instruction g i)
    exact ⟨n1 ++ n2, by simp [processList, h2, h1]⟩

/-- C5: for every assignment expression whose left operand is a plain
variable `x`, the generator emits the right-hand side's code, then
`StoreVar x`, then `LoadVar x`, so the assignment expression's value is the
stored value; and generating `$a = 5;` as a bare expression statement yields
`[PushInt 5, StoreVar a, LoadVar a, Pop]`, in which the instruction
immediately before the trailing `Pop` (index 2 of 4) is `LoadVar "a"`. -/
theorem c5_assign_stores_then_reloads :
    (∀ (x : String) (rhs : Node) (xl al : Location) (s s1 : CodeGenerator),
        genNode rhs s = .ok s1 →
        genNode (.BinaryExpr .Assign (.Variable x xl) rhs al) s =
          .ok (emit (.LoadVar x) (emit (.StoreVar x) s1))) ∧
    CodeGenerator.new.generate
        (.Program [.ExpressionStmt
          (.BinaryExpr .Assign (.Variable "a" L0) (.IntLiteral 5 L0) L0)]) =
      .ok [.PushInt 5, .StoreVar "a", .LoadVar "a", .Pop]
        { functions := []
          current_instructions := [.PushInt 5, .StoreVar "a", .LoadVar "a", .Pop] } ∧
    [Instruction.PushInt 5, .StoreVar "a", .LoadVar "a", .Pop].getLast? = some .Pop ∧
    [Instruction.PushInt 5, .StoreVar "a", .LoadVar "a", .Pop][2]? =
      some (.LoadVar "a") := by
  refine ⟨?_, by decide, by decide, by decide⟩
  intro x rhs xl al s s1 h
  rw [genNode_assign]
  simp [assignTarget, h]

/-- Witness for C5: the general clause applied to `$a = 5` from a fresh
generator. -/
theorem c5_assign_stores_then_reloads_witness :
    genNode (.BinaryExpr .Assign (.Variable "a" L0) (.IntLiteral 5 L0) L0)
        CodeGenerator.new =
      .ok (emit (.LoadVar "a") (emit (.StoreVar "a")
        { functions := [], current_instructions := [.PushInt 5] })) :=
  c5_assign_stores_then_reloads.1 "a" (.IntLiteral 5 L0) L0 L0 CodeGenerator.new
    { functions := [], current_instructions := [.PushInt 5] } (by decide)

/-- C9 (amended): when generating the iterated expression succeeds, the
foreach node's generation keeps that code and fails with exactly the
code-generation error message "Foreach loops are not fully implemented yet";
iteration semantics are never emitted.  (When the iterated expression itself
fails to generate, that inner error propagates instead — see the
counterexample.) -/
theorem c9_foreach_rejected (array body : Node) (vv : String) (kv : Option String)
    (loc : Location) (s s1 : CodeGenerator) (h : genNode array s = .ok s1) :
    genNode (.ForeachStmt array vv kv body loc) s =
      .err (.CodeGenError "Foreach loops are not fully implemented yet") s1 := by
  rw [genNode_foreach, h]

/-- Witness for C9 on `foreach` over the literal `1`. -/
theorem c9_foreach_rejected_witness :
    genNode (.ForeachStmt (.IntLiteral 1 L0) "v" none (.BlockStmt [] L0) L0)
        CodeGenerator.new =
      .err (.CodeGenError "Foreach loops are not fully implemented yet")
        { functions := [], current_instructions := [.PushInt 1] } :=
  c9_foreach_rejected (.IntLiteral 1 L0) (.BlockStmt [] L0) "v" none L0
    CodeGenerator.new { functions := [], current_instructions := [.PushInt 1] }
    (by decide)

/-- C9 counterexample to the claim as stated: a foreach node whose iterated
expression is an invalid assignment generates an error whose message is the
assignment one, not the foreach one. -/
theorem c9_counterexample :
    genNode (.ForeachStmt
        (.BinaryExpr .Assign (.IntLiteral 1 L0) (.IntLiteral 2 L0) L0)
        "v" none (.BlockStmt [] L0) L0) CodeGenerator.new =
      .err (.CodeGenError "Left-hand side of assignment must be a variable")
        CodeGenerator.new ∧
    "Left-hand side of assignment must be a variable" ≠
      "Foreach loops are not fully implemented yet" :=
  ⟨by decide, by decide⟩

/-- C4: for a function declaration whose body generates instruction list
`I`, the stored function's sequence is `I` itself when a `Return` occurs
anywhere in `I`, and `I ++ [PushNull, Return]` otherwise; in particular a
body with no `Return` anywhere is stored ending in `PushNull, Return`. -/
theorem c4_function_epilogue (nm : String) (params : List (String × Option PhpType))
    (b : Node) (loc : Location) (s : CodeGenerator) (F1 : List (String × Func))
    (I : List Instruction)
    (h : genNode b { s with current_instructions := [] } =
      .ok { functions := F1, current_instructions := I }) :
    genNode (.FunctionDecl nm params b loc) s =
      .ok { functions :=
              (nm, { name := nm
                     param_count := params.length
                     instructions :=
                       if I.any isReturnInstr then I
                       else I ++ [.PushNull, .Return] }) :: F1
            current_instructions := s.current_instructions } ∧
    (I.any isReturnInstr = true ↔ Instruction.Return ∈ I) ∧
    (Instruction.Return ∉ I →
      (if I.any isReturnInstr then I else I ++ [.PushNull, .Return]) =
        I ++ [.PushNull, .Return]) := by
  refine ⟨?_, ?_, ?_⟩
  · rw [genNode_funcDecl, h]
  · simp [List.any_eq_true, isReturnInstr_eq]
  · intro hno
    have : I.any isReturnInstr = false := by
      rw [← Bool.not_eq_true]
      simp only [List.any_eq_true, isReturnInstr_eq]
      rintro ⟨x, hx, rfl⟩
      exact hno hx
    simp [this]

/-- Witness for C4: a function whose body is `{ 1; }` (no return anywhere)
is stored with instruction sequence ending in `PushNull, Return`. -/
theorem c4_function_epilogue_witness :
    genNode (.FunctionDecl "f" []
        (.BlockStmt [.ExpressionStmt (.IntLiteral 1 L0)] L0) L0)
        CodeGenerator.new =
      .ok { functions :=
              [("f", { name := "f", param_count := 0,
                       instructions := [.PushInt 1, .Pop, .PushNull, .Return] })]
            current_instructions := [] } := by
  have h := (c4_function_epilogue "f" []
    (.BlockStmt [.ExpressionStmt (.IntLiteral 1 L0)] L0) L0 CodeGenerator.new
    [] [.PushInt 1, .Pop] (by decide)).1
  exact h.trans (by decide)

/-- C8: the native lowering is total — for every instruction sequence
`generate` returns the rendered text of header, lowered instructions, data
section and footer — and the two instructions without a defined lowering,
`Call` and `Return`, each emit exactly one inert comment line and change
nothing else. -/
theorem c8_lowering_never_fails :
    (∀ instructions, ∃ rest, asmGenLines instructions = headerLines ++ rest) ∧
    (∀ (g : AsmGenerator) (nm : String) (argc : Nat),
        process_instruction g (.Call nm argc) =
          wl g ["    # Unimplemented: " ++ instrDebug (.Call nm argc)]) ∧
    (∀ g : AsmGenerator, process_instruction g .Return =
        wl g ["    # Unimplemented: " ++ instrDebug Instruction.Return]) ∧
    (∀ (instructions : List Instruction) (g0 : AsmGenerator),
        (g0.generate instructions).1 = renderLines (asmGenLines instructions)) := by
  refine ⟨?_, fun g nm argc => rfl, fun g => rfl, fun instrs g0 => rfl⟩
  intro instrs
  obtain ⟨new, h⟩ := processList_asm instrs headerState
  refine ⟨new ++ (stringLitLines (asmRun instrs).string_literals ++ footerLines), ?_⟩
  have hh : (asmRun instrs).asm_code = headerLines ++ new := h
  rw [asmGenLines, hh]
  simp

/-- C10: `PushFloat(v)` is lowered by materialising `v` truncated toward
zero (saturating, Rust `as i64`) as an integer: apart from the leading
comment, its lines coincide with those of `PushInt` of the truncated value,
so no floating-point representation reaches the executable code, even
though the data section always declares the `%f` format string. -/
theorem c10_pushFloat_truncated :
    (∀ (g : AsmGenerator) (q : ℚ),
        process_instruction g (.PushFloat q) =
          wl g ["    # PushFloat(" ++ toString q ++ ")",
                "    mov rax, " ++ toString (f64AsI64 q),
                "    push rax"]) ∧
    (∀ (g : AsmGenerator) (q : ℚ),
        (process_instruction g (.PushFloat q)).asm_code.drop
            (g.asm_code.length + 1) =
          (process_instruction g (.PushInt (f64AsI64 q))).asm_code.drop
            (g.asm_code.length + 1)) ∧
    (∀ lits : List String, "fmt_float:" ∈ stringLitLines lits) := by
  refine ⟨fun g q => rfl, fun g q => ?_, fun lits => ?_⟩
  · have e1 : (process_instruction g (.PushFloat q)).asm_code =
        g.asm_code ++ ["    # PushFloat(" ++ toString q ++ ")",
          "    mov rax, " ++ toString (f64AsI64 q), "    push rax"] := rfl
    have e2 : (process_instruction g (.PushInt (f64AsI64 q))).asm_code =
        g.asm_code ++ ["    # PushInt(" ++ toString (f64AsI64 q) ++ ")",
          "    mov rax, " ++ toString (f64AsI64 q), "    push rax"] := rfl
    rw [e1, e2, drop_len_append, drop_len_append]
    rfl
  · exact List.mem_append.mpr (Or.inl (by decide))

/-- Two strings differing at character index 4 are distinct. -/
theorem str_ne_of_char4 (a b : String) (ca cb : Char) (ha : a.data[4]? = some ca)
    (hb : b.data[4]? = some cb) (hne : ca ≠ cb) : a ≠ b := by
  intro h
  subst h
  rw [ha] at hb
  exact hne (Option.some.inj hb)

/-- C7: every `Echo` and every `EchoLine` lowering pops the value, compares
it against the fixed threshold 100000 and branches with `jge` (taken exactly
when the value is ≥ 100000) to the `%s` printf path, falling through to the
`%d` printf path otherwise; `EchoLine` additionally ends with a
newline-character `putchar`, while `Echo` emits no `putchar` at all. -/
theorem c7_echo_threshold :
    (∀ g : AsmGenerator, process_instruction g .Echo =
      { g with asm_code := g.asm_code ++ echoLines g.label_counter
               label_counter := g.label_counter + 1 }) ∧
    (∀ g : AsmGenerator, process_instruction g .EchoLine =
      { g with asm_code := g.asm_code ++ echoLineLines g.label_counter
               label_counter := g.label_counter + 1 }) ∧
    (∀ c : Nat,
      (echoLines c)[3]? =
          some "    cmp rdx, 100000  # Assume values < 100000 are integers" ∧
      (echoLines c)[4]? = some ("    jge .print_string_" ++ toString c) ∧
      (echoLines c)[6]? =
          some "    lea rcx, [rip + fmt_int]  # Format string (first arg)" ∧
      (echoLines c)[11]? =
          some "    lea rcx, [rip + fmt_str]  # Format string (first arg)" ∧
      (echoLineLines c)[3]? =
          some "    cmp rdx, 100000  # Assume values < 100000 are integers" ∧
      (echoLineLines c)[4]? = some ("    jge .print_string_line_" ++ toString c)) ∧
    (∀ c : Nat, "    call putchar" ∉ echoLines c) ∧
    (∀ c : Nat, (echoLineLines c).drop 15 =
        ["    mov rcx, 10  # '\\n' (first arg)", "    call putchar"]) := by
  refine ⟨fun g => rfl, fun g => rfl,
    fun c => ⟨rfl, rfl, rfl, rfl, rfl, rfl⟩, ?_, fun c => rfl⟩
  intro c h
  simp only [echoLines, List.mem_cons, List.not_mem_nil, or_false] at h
  rcases h with h|h|h|h|h|h|h|h|h|h|h|h|h|h|h
  · exact absurd h (by decide)
  · exact absurd h (by decide)
  · exact absurd h (by decide)
  · exact absurd h (by decide)
  · exact str_ne_of_char4 "    call putchar"
      ("    jge .print_string_" ++ toString c) 'c' 'j' rfl rfl (by decide) h
  · exact absurd h (by decide)
  · exact absurd h (by decide)
  · exact absurd h (by decide)
  · exact absurd h (by decide)
  · exact str_ne_of_char4 "    call putchar"
      ("    jmp .echo_done_" ++ toString c) 'c' 'j' rfl rfl (by decide) h
  · exact str_ne_of_char4 "    call putchar"
      (".print_string_" ++ toString c ++ ":") 'c' 'n' rfl rfl (by decide) h
  · exact absurd h (by decide)
  · exact absurd h (by decide)
  · exact absurd h (by decide)
  · exact str_ne_of_char4 "    call putchar"
      (".echo_done_" ++ toString c ++ ":") 'c' 'o' rfl rfl (by decide) h

/-- One lowering step appends exactly the `specLits` entries of its
instruction to the literal pool. -/
theorem process_lits (g : AsmGenerator) (i : Instruction) :
    (process_instruction g i).string_literals =
      g.string_literals ++ specLits [i] := by
  cases i with
  | LoadVar n =>
    show (get_var_offset g n).2.string_literals = _
    rw [(get_var_offset_fields g n).2.1]
    simp [specLits]
  | StoreVar n =>
    show (get_var_offset g n).2.string_literals = _
    rw [(get_var_offset_fields g n).2.1]
    simp [specLits]
  | _ => simp [process_instruction, specLits, wl]

/-- The instruction loop splits over concatenation. -/
theorem processList_app (g : AsmGenerator) (l1 l2 : List Instruction) :
    processList g (l1 ++ l2) = processList (processList g l1) l2 := by
  induction l1 generalizing g with
  | nil => rfl
  | cons i rest ih => simpa [processList] using ih (process_instruction g i)

/-- The literal pool after the instruction loop is the initial pool followed
by the `specLits` entries of the processed sequence, in order. -/
theorem processList_lits (g : AsmGenerator) (l : List Instruction) :
    (processList g l).string_literals = g.string_literals ++ specLits l := by
  induction l generalizing g with
  | nil => simp [processList, specLits]
  | cons i rest ih =>
    rw [show processList g (i :: rest) = processList (process_instruction g i) rest
      from rfl, ih, process_lits]
    cases i <;> simp [specLits]

/-- `specLits` distributes over append. -/
theorem specLits_append (a b : List Instruction) :
    specLits (a ++ b) = specLits a ++ specLits b := by
  induction a with
  | nil => rfl
  | cons i rest ih => cases i <;> simp [specLits, ih]

/-- The pool grows by one entry per `PushString` and one per `Concat`. -/
theorem specLits_length (l : List Instruction) :
    (specLits l).length =
      l.countP (fun i => isPushStringInstr i) +
        l.countP (fun i => isConcatInstr i) := by
  induction l with
  | nil => rfl
  | cons i rest ih =>
    cases i <;> simp [specLits, List.countP_cons, isPushStringInstr, isConcatInstr, ih] <;> omega

/-- C2 (amended): in a lowering run, the `PushString` after a prefix `pre`
is lowered to a reference to literal-pool entry `(specLits pre).length`,
which equals the number of `PushString` occurrences in `pre` plus the number
of `Concat` occurrences in `pre` (each `Concat` also appends a placeholder
pool entry); that pool entry holds exactly the pushed value, with no
interning of repeated values.  The claim's "entry i for the i-th PushString"
holds exactly when no `Concat` precedes it. -/
theorem c2_literal_pool_order (pre : List Instruction) (v : String)
    (post : List Instruction) :
    (∃ rest, (asmRun (pre ++ .PushString v :: post)).asm_code =
        (asmRun pre).asm_code ++
          (["    # PushString(\"" ++ v ++ "\")",
            "    lea rax, [rip + str_" ++ toString (specLits pre).length ++ "]",
            "    push rax"] ++ rest)) ∧
    (asmRun (pre ++ .PushString v :: post)).string_literals[(specLits pre).length]? =
      some v ∧
    (specLits pre).length =
      pre.countP (fun i => isPushStringInstr i) +
        pre.countP (fun i => isConcatInstr i) := by
  have hlitsA : (asmRun pre).string_literals = specLits pre := by
    rw [asmRun, processList_lits]; rfl
  have hsplit : asmRun (pre ++ .PushString v :: post) =
      processList (process_instruction (asmRun pre) (.PushString v)) post := by
    rw [asmRun, processList_app]; rfl
  refine ⟨?_, ?_, specLits_length pre⟩
  · obtain ⟨rest, hrest⟩ :=
      processList_asm post (process_instruction (asmRun pre) (.PushString v))
    refine ⟨rest, ?_⟩
    rw [hsplit, hrest]
    have hstep : (process_instruction (asmRun pre) (.PushString v)).asm_code =
        (asmRun pre).asm_code ++
          ["    # PushString(\"" ++ v ++ "\")",
           "    lea rax, [rip + str_" ++
             toString (asmRun pre).string_literals.length ++ "]",
           "    push rax"] := rfl
    rw [hstep, hlitsA]
    simp
  · rw [hsplit, processList_lits, process_lits, hlitsA]
    have hv : specLits [Instruction.PushString v] = [v] := rfl
    rw [hv, List.append_assoc, List.getElem?_append_right (Nat.le_refl _)]
    simp

/-- C2 counterexample to the claim as stated: after a `Concat`, the first
(0-th) `PushString` of the sequence is lowered to a reference to pool entry
1, not entry 0 — entry 0 is the concat placeholder. -/
theorem c2_counterexample :
    (asmRun [.Concat, .PushString "a"]).string_literals =
      ["<concatenated string>", "a"] ∧
    "    lea rax, [rip + str_1]" ∈ (asmRun [.Concat, .PushString "a"]).asm_code ∧
    "    lea rax, [rip + str_0]" ∉ (asmRun [.Concat, .PushString "a"]).asm_code :=
  ⟨by decide, by decide, by decide⟩

/-! Frame-offset-table lemmas for C6. -/

/-- First-match lookup splits over append. -/
theorem lookupA_append {α : Type} (k : String) (A B : List (String × α)) :
    lookupA k (A ++ B) =
      (match lookupA k A with
       | some v => some v
       | none => lookupA k B) := by
  induction A with
  | nil => rfl
  | cons p rest ih =>
    rcases p with ⟨k', v⟩
    by_cases hk : k' = k <;> simp [lookupA, hk, ih]

/-- Lookup misses exactly when no key matches. -/
theorem lookupA_none_iff {α : Type} (k : String) (m : List (String × α)) :
    lookupA k m = none ↔ ∀ p ∈ m, p.1 ≠ k := by
  induction m with
  | nil => simp [lookupA]
  | cons p rest ih =>
    rcases p with ⟨k', v⟩
    by_cases hk : k' = k <;> simp [lookupA, hk, ih]

/-- `offsetsOf` distributes over append, shifting the slot counter. -/
theorem offsetsOf_append (l1 l2 : List String) (k : Nat) :
    offsetsOf (l1 ++ l2) k = offsetsOf l1 k ++ offsetsOf l2 (k + l1.length) := by
  induction l1 generalizing k with
  | nil => simp [offsetsOf]
  | cons n rest ih =>
    simp [offsetsOf, ih, Nat.add_assoc, Nat.add_comm 1 rest.length]

/-- Keys of the offset table come from the name list. -/
theorem offsetsOf_keys (fo : List String) (j : Nat) :
    ∀ p ∈ offsetsOf fo j, p.1 ∈ fo := by
  induction fo generalizing j with
  | nil => simp [offsetsOf]
  | cons n rest ih =>
    intro p hp
    rw [offsetsOf, List.mem_cons] at hp
    rcases hp with h | h
    · subst h; exact List.mem_cons_self _ _
    · exact List.mem_cons_of_mem _ (ih (j + 1) p h)

/-- Every listed name has an entry in the offset table. -/
theorem mem_offsetsOf (n : String) (fo : List String) (hn : n ∈ fo) (j : Nat) :
    ∃ o, (n, o) ∈ offsetsOf fo j := by
  induction fo generalizing j with
  | nil => cases hn
  | cons m rest ih =>
    rcases List.mem_cons.mp hn with h | h
    · subst h; exact ⟨8 + j * 8, List.mem_cons_self _ _⟩
    · obtain ⟨o, ho⟩ := ih h (j + 1)
      exact ⟨o, List.mem_cons_of_mem _ ho⟩

/-- A name outside the list has no entry in the (reversed) offset table. -/
theorem lookupA_offsets_rev_none (n : String) (fo : List String) (j : Nat)
    (hn : n ∉ fo) : lookupA n ((offsetsOf fo j).reverse) = none := by
  rw [lookupA_none_iff]
  intro p hp
  rw [List.mem_reverse] at hp
  intro hk
  exact hn (hk ▸ offsetsOf_keys fo j p hp)

/-- A listed name has an entry in the (reversed) offset table. -/
theorem lookupA_offsets_rev_isSome (n : String) (fo : List String) (j : Nat)
    (hn : n ∈ fo) : lookupA n ((offsetsOf fo j).reverse) ≠ none := by
  intro hnone
  rw [lookupA_none_iff] at hnone
  obtain ⟨o, ho⟩ := mem_offsetsOf n fo hn j
  exact hnone (n, o) (List.mem_reverse.mpr ho) rfl

/-- In the reversed offset table of distinct names, the `k`-th name looks up
to slot `8 + (j + k) * 8`. -/
theorem lookupA_offsetsOf_rev (fo : List String) (hnd : fo.Nodup) (k : Nat)
    (nm : String) (h : fo[k]? = some nm) (j : Nat) :
    lookupA nm ((offsetsOf fo j).reverse) = some (8 + (j + k) * 8) := by
  induction fo generalizing k j with
  | nil => simp at h
  | cons n t ih =>
    rw [List.nodup_cons] at hnd
    rw [offsetsOf, List.reverse_cons, lookupA_append]
    cases k with
    | zero =>
      rw [List.getElem?_cons_zero] at h
      obtain rfl : n = nm := Option.some.inj h
      rw [lookupA_offsets_rev_none n t (j + 1) hnd.1]
      simp [lookupA]
    | succ k =>
      rw [List.getElem?_cons_succ] at h
      have hmem : nm ∈ t := by
        obtain ⟨hk, he⟩ := List.getElem?_eq_some.mp h
        exact he ▸ List.getElem_mem hk
      have := ih hnd.2 k h (j + 1)
      rw [this]
      have harith : j + 1 + k = j + (k + 1) := by omega
      rw [harith]

/-- `firstOccurAux` depends on `seen` only through membership. -/
theorem firstOccurAux_congr (l : List String) :
    ∀ s1 s2 : List String, (∀ x, x ∈ s1 ↔ x ∈ s2) →
      firstOccurAux s1 l = firstOccurAux s2 l := by
  induction l with
  | nil => intro s1 s2 _; rfl
  | cons a l ih =>
    intro s1 s2 hmem
    rw [firstOccurAux, firstOccurAux]
    by_cases ha : a ∈ s1
    · rw [if_pos ha, if_pos ((hmem a).mp ha), ih s1 s2 hmem]
    · rw [if_neg ha, if_neg (fun h => ha ((hmem a).mpr h)),
        ih (a :: s1) (a :: s2) (by intro x; simp [hmem x])]

/-- The accumulated distinct-name list stays duplicate-free. -/
theorem firstOccurAux_nodup (l : List String) :
    ∀ seen : List String, seen.Nodup → (seen ++ firstOccurAux seen l).Nodup := by
  induction l with
  | nil => intro seen h; simpa [firstOccurAux] using h
  | cons a l ih =>
    intro seen hs
    rw [firstOccurAux]
    by_cases ha : a ∈ seen
    · rw [if_pos ha]; exact ih seen hs
    · rw [if_neg ha]
      have := ih (a :: seen) (List.nodup_cons.mpr ⟨ha, hs⟩)
      exact (List.perm_middle.symm).nodup this

/-- The lowering of an instruction that references no variable leaves the
frame table and its counter unchanged. -/
theorem process_vars_nonvar (g : AsmGenerator) (i : Instruction)
    (h : varNames [i] = []) :
    (process_instruction g i).vars = g.vars ∧
      (process_instruction g i).var_counter = g.var_counter := by
  cases i <;> first | exact ⟨rfl, rfl⟩ | simp [varNames] at h

/-- An offset, once assigned, is never changed by later lowering steps. -/
theorem process_vars_mono (g : AsmGenerator) (i : Instruction) (nm : String)
    (off : Nat) (h : lookupA nm g.vars = some off) :
    lookupA nm (process_instruction g i).vars = some off := by
  have hgvo : ∀ n, lookupA nm (get_var_offset g n).2.vars = some off := by
    intro n
    cases hn : lookupA n g.vars with
    | some o => simp [get_var_offset, hn, h]
    | none =>
      have hne : n ≠ nm := fun he => by rw [he, h] at hn; cases hn
      simp [get_var_offset, hn, lookupA, hne, h]
  cases i <;> first | exact h | exact hgvo _

/-- Offset stability along a whole lowering run. -/
theorem processList_vars_mono (l : List Instruction) (g : AsmGenerator)
    (nm : String) (off : Nat) (h : lookupA nm g.vars = some off) :
    lookupA nm (processList g l).vars = some off := by
  induction l generalizing g with
  | nil => exact h
  | cons i rest ih => exact ih (process_instruction g i) (process_vars_mono g i nm off h)

/-- The frame-table invariant: the table holds exactly the names seen so
far, in first-seen order, with slots `8, 16, 24, …`. -/
def VarsInv (g : AsmGenerator) (fo : List String) : Prop :=
  g.vars = (offsetsOf fo 0).reverse ∧ g.var_counter = fo.length

/-- `get_var_offset` preserves the invariant, extending the name list when
the name is fresh. -/
theorem gvo_inv (g : AsmGenerator) (fo : List String) (n : String)
    (hInv : VarsInv g fo) :
    VarsInv (get_var_offset g n).2 (if n ∈ fo then fo else fo ++ [n]) := by
  obtain ⟨hv, hc⟩ := hInv
  by_cases hn : n ∈ fo
  · rw [if_pos hn]
    have hne : lookupA n g.vars ≠ none := by
      rw [hv]; exact lookupA_offsets_rev_isSome n fo 0 hn
    cases hl : lookupA n g.vars with
    | none => exact absurd hl hne
    | some o =>
      constructor
      · simp only [get_var_offset, hl]; exact hv
      · simp only [get_var_offset, hl]; exact hc
  · rw [if_neg hn]
    have hl : lookupA n g.vars = none := by
      rw [hv]; exact lookupA_offsets_rev_none n fo 0 hn
    constructor
    · simp only [get_var_offset, hl]
      rw [hv, hc, offsetsOf_append, List.reverse_append]
      simp [offsetsOf]
    · simp only [get_var_offset, hl]
      rw [hc]; simp

/-- The frame-table invariant after lowering a whole sequence from a state
satisfying it: the name list grows by the sequence's fresh names in
first-reference order. -/
theorem varsInv_processList (instrs : List Instruction) :
    ∀ (fo : List String) (g : AsmGenerator), VarsInv g fo →
      VarsInv (processList g instrs) (fo ++ firstOccurAux fo (varNames instrs)) := by
  induction instrs with
  | nil =>
    intro fo g h
    rw [processList, varNames, firstOccurAux]
    simpa using h
  | cons i rest ih =>
    intro fo g h
    rw [show processList g (i :: rest) = processList (process_instruction g i) rest
      from rfl]
    by_cases hvn : varNames [i] = []
    · have hpres := process_vars_nonvar g i hvn
      have hstep : VarsInv (process_instruction g i) fo := by
        obtain ⟨h1, h2⟩ := h
        exact ⟨hpres.1.trans h1, hpres.2.trans h2⟩
      have hnames : varNames (i :: rest) = varNames rest := by
        cases i <;> first | rfl | simp [varNames] at hvn
      rw [hnames]
      exact ih fo (process_instruction g i) hstep
    · obtain ⟨n, hn⟩ : ∃ n, varNames (i :: rest) = n :: varNames rest ∧
          (process_instruction g i).vars = (get_var_offset g n).2.vars ∧
          (process_instruction g i).var_counter = (get_var_offset g n).2.var_counter := by
        cases i <;> first
          | (exact absurd rfl hvn)
          | (rename_i m; exact ⟨m, rfl, rfl, rfl⟩)
      obtain ⟨hna, hva, hca⟩ := hn
      have hstep := gvo_inv g fo n h
      rw [hna]
      by_cases hmem : n ∈ fo
      · rw [if_pos hmem] at hstep
        have hinv1 : VarsInv (process_instruction g i) fo :=
          ⟨hva.trans hstep.1, hca.trans hstep.2⟩
        rw [firstOccurAux, if_pos hmem]
        exact ih fo (process_instruction g i) hinv1
      · rw [if_neg hmem] at hstep
        have hinv2 : VarsInv (process_instruction g i) (fo ++ [n]) :=
          ⟨hva.trans hstep.1, hca.trans hstep.2⟩
        rw [firstOccurAux, if_neg hmem,
          firstOccurAux_congr (varNames rest) (n :: fo) (fo ++ [n])
            (by intro x; simp; tauto),
          show fo ++ n :: firstOccurAux (fo ++ [n]) (varNames rest) =
            (fo ++ [n]) ++ firstOccurAux (fo ++ [n]) (varNames rest) by simp]
        exact ih (fo ++ [n]) (process_instruction g i) hinv2

/-- C6: within one lowering invocation, the `k`-th distinct variable name
(0-based, in order of first reference by `LoadVar`/`StoreVar`) is assigned
frame offset `8 + k * 8`; an offset assigned after any prefix of the run is
still the name's offset at the end (re-referencing never changes it); and a
reference to a name already in the table resolves to exactly the stored
offset. -/
theorem c6_frame_offsets (instrs : List Instruction) (k : Nat) (nm : String)
    (h : (firstOccur (varNames instrs))[k]? = some nm) :
    lookupA nm (asmRun instrs).vars = some (8 + k * 8) ∧
    (∀ pre post off, instrs = pre ++ post →
      lookupA nm (asmRun pre).vars = some off →
      lookupA nm (asmRun instrs).vars = some off) ∧
    (∀ (g : AsmGenerator) (off : Nat), lookupA nm g.vars = some off →
      (get_var_offset g nm).1 = off) := by
  refine ⟨?_, ?_, ?_⟩
  · have hInv := varsInv_processList instrs [] headerState ⟨rfl, rfl⟩
    rw [List.nil_append] at hInv
    have hnd : (firstOccur (varNames instrs)).Nodup := by
      have := firstOccurAux_nodup (varNames instrs) [] List.nodup_nil
      simpa [firstOccur] using this
    have := lookupA_offsetsOf_rev (firstOccur (varNames instrs)) hnd k nm h 0
    rw [show asmRun instrs = processList headerState instrs from rfl, hInv.1]
    simpa using this
  · intro pre post off hsplit hoff
    rw [hsplit, asmRun, processList_app]
    exact processList_vars_mono post (asmRun pre) nm off hoff
  · intro g off hoff
    simp only [get_var_offset, hoff]

/-- Witness for C6 on `[LoadVar x, StoreVar y, LoadVar x]`: `y` is the
second distinct name and gets offset 16; its offset after the two-instruction
prefix persists to the end; and a lookup through `get_var_offset` resolves
to it. -/
theorem c6_frame_offsets_witness :
    lookupA "y" (asmRun [.LoadVar "x", .StoreVar "y", .LoadVar "x"]).vars =
      some (8 + 1 * 8) ∧
    lookupA "y" (asmRun [.LoadVar "x", .StoreVar "y", .LoadVar "x"]).vars =
      some 16 ∧
    (get_var_offset (asmRun [.LoadVar "x", .StoreVar "y", .LoadVar "x"]) "y").1 = 16 := by
  have h := c6_frame_offsets [.LoadVar "x", .StoreVar "y", .LoadVar "x"] 1 "y" (by decide)
  refine ⟨h.1, ?_, ?_⟩
  · exact h.2.1 [.LoadVar "x", .StoreVar "y"] [.LoadVar "x"] 16 rfl (by decide)
  · exact h.2.2 (asmRun [.LoadVar "x", .StoreVar "y", .LoadVar "x"]) 16 (by decide)

/-- Bundled induction hypotheses for structural induction over `Node`. -/
structure NodeIH (P : Node → Prop) : Prop where
  hProgram : ∀ l, (∀ x ∈ l, P x) → P (.Program l)
  hExpr : ∀ e, P e → P (.ExpressionStmt e)
  hBlock : ∀ l loc, (∀ x ∈ l, P x) → P (.BlockStmt l loc)
  hIf : ∀ c tb eb loc, P c → P tb → (∀ x, eb = some x → P x) → P (.IfStmt c tb eb loc)
  hWhile : ∀ c b loc, P c → P b → P (.WhileStmt c b loc)
  hFor : ∀ i c inc b loc, (∀ x, i = some x → P x) → (∀ x, c = some x → P x) →
    (∀ x, inc = some x → P x) → P b → P (.ForStmt i c inc b loc)
  hForeach : ∀ a vv kv b loc, P a → P b → P (.ForeachStmt a vv kv b loc)
  hReturn : ∀ v loc, (∀ x, v = some x → P x) → P (.ReturnStmt v loc)
  hEcho : ∀ l loc, (∀ x ∈ l, P x) → P (.EchoStmt l loc)
  hVar : ∀ nm i loc, (∀ x, i = some x → P x) → P (.VarDecl nm i loc)
  hFunc : ∀ nm ps b loc, P b → P (.FunctionDecl nm ps b loc)
  hBin : ∀ op l r loc, P l → P r → P (.BinaryExpr op l r loc)
  hUn : ∀ op e loc, P e → P (.UnaryExpr op e loc)
  hVariable : ∀ nm loc, P (.Variable nm loc)
  hCall : ∀ nm args loc, (∀ x ∈ args, P x) → P (.FunctionCall nm args loc)
  hInt : ∀ v loc, P (.IntLiteral v loc)
  hFloat : ∀ v loc, P (.FloatLiteral v loc)
  hStr : ∀ v loc, P (.StringLiteral v loc)
  hBool : ∀ v loc, P (.BooleanLiteral v loc)
  hNull : ∀ loc, P (.NullLiteral loc)
  hArr : ∀ els loc, (∀ p ∈ els, (∀ x, p.1 = some x → P x) ∧ P p.2) →
    P (.ArrayLiteral els loc)

/-- Structural induction over `Node` with list and option sub-hypotheses. -/
theorem nodeInd {P : Node → Prop} (H : NodeIH P) : ∀ n : Node, P n
  | .Program l => H.hProgram l (fun x _hx => nodeInd H x)
  | .ExpressionStmt e => H.hExpr e (nodeInd H e)
  | .BlockStmt l loc => H.hBlock l loc (fun x _hx => nodeInd H x)
  | .IfStmt c tb eb loc =>
    H.hIf c tb eb loc (nodeInd H c) (nodeInd H tb) (fun x _hx => nodeInd H x)
  | .WhileStmt c b loc => H.hWhile c b loc (nodeInd H c) (nodeInd H b)
  | .ForStmt i c inc b loc =>
    H.hFor i c inc b loc (fun x _hx => nodeInd H x) (fun x _hx => nodeInd H x)
      (fun x _hx => nodeInd H x) (nodeInd H b)
  | .ForeachStmt a vv kv b loc =>
    H.hForeach a vv kv b loc (nodeInd H a) (nodeInd H b)
  | .ReturnStmt v loc => H.hReturn v loc (fun x _hx => nodeInd H x)
  | .EchoStmt l loc => H.hEcho l loc (fun x _hx => nodeInd H x)
  | .VarDecl nm i loc => H.hVar nm i loc (fun x _hx => nodeInd H x)
  | .FunctionDecl nm ps b loc => H.hFunc nm ps b loc (nodeInd H b)
  | .BinaryExpr op l r loc => H.hBin op l r loc (nodeInd H l) (nodeInd H r)
  | .UnaryExpr op e loc => H.hUn op e loc (nodeInd H e)
  | .Variable nm loc => H.hVariable nm loc
  | .FunctionCall nm args loc => H.hCall nm args loc (fun x _hx => nodeInd H x)
  | .IntLiteral v loc => H.hInt v loc
  | .FloatLiteral v loc => H.hFloat v loc
  | .StringLiteral v loc => H.hStr v loc
  | .BooleanLiteral v loc => H.hBool v loc
  | .NullLiteral loc => H.hNull loc
  | .ArrayLiteral els loc =>
    H.hArr els loc (fun p _hp => ⟨fun x _hx => nodeInd H x, nodeInd H p.2⟩)
termination_by n => sizeOf n
decreasing_by
  all_goals simp_wf
  all_goals
    first
      | (subst _hx; simp; omega)
      | (have h1 := List.sizeOf_lt_of_mem _hx; omega)
      | (have h1 := List.sizeOf_lt_of_mem _hp
         rcases p with ⟨p1, p2⟩
         subst _hx
         simp at h1 ⊢
         omega)
      | (have h1 := List.sizeOf_lt_of_mem _hp
         rcases p with ⟨p1, p2⟩
         simp at h1 ⊢
         omega)
      | simp
      | omega

/-- Alignment of two generation results started from function tables `F` and
`F'` (but the same instruction buffer): same error behaviour, same
instruction buffer, and the same new function entries prepended to the
respective starting tables. -/
def FnAligned (F F' : List (String × Func)) : GenRes → GenRes → Prop
  | .ok s, .ok s' =>
      s.current_instructions = s'.current_instructions ∧
      ∃ D, s.functions = D ++ F ∧ s'.functions = D ++ F'
  | .err e s, .err e' s' =>
      e = e' ∧ s.current_instructions = s'.current_instructions ∧
      ∃ D, s.functions = D ++ F ∧ s'.functions = D ++ F'
  | _, _ => False

/-- A node generates in a way independent of the starting function table. -/
def PAligned (n : Node) : Prop :=
  ∀ (F F' : List (String × Func)) (c : List Instruction),
    FnAligned F F' (genNode n { functions := F, current_instructions := c })
      (genNode n { functions := F', current_instructions := c })

theorem FnAligned_weaken (F F' D : List (String × Func)) (r r' : GenRes)
    (h : FnAligned (D ++ F) (D ++ F') r r') : FnAligned F F' r r' := by
  cases r with
  | ok s =>
    cases r' with
    | ok s' =>
      obtain ⟨hc, D2, h1, h2⟩ := h
      exact ⟨hc, D2 ++ D, by rw [h1, List.append_assoc], by rw [h2, List.append_assoc]⟩
    | err e' s' => exact h
  | err e s =>
    cases r' with
    | ok s' => exact h
    | err e' s' =>
      obtain ⟨he, hc, D2, h1, h2⟩ := h
      exact ⟨he, hc, D2 ++ D, by rw [h1, List.append_assoc], by rw [h2, List.append_assoc]⟩

theorem genSeq_aligned (l : List Node) (hl : ∀ x ∈ l, PAligned x)
    (F F' : List (String × Func)) (c : List Instruction) :
    FnAligned F F' (genSeq l { functions := F, current_instructions := c })
      (genSeq l { functions := F', current_instructions := c }) := by
  induction l generalizing F F' c with
  | nil => exact ⟨rfl, [], rfl, rfl⟩
  | cons n rest ih =>
    rw [genSeq_cons, genSeq_cons]
    have h1 := hl n (List.mem_cons_self n rest) F F' c
    cases hr : genNode n { functions := F, current_instructions := c } with
    | err e s =>
      cases hr' : genNode n { functions := F', current_instructions := c } with
      | err e' s' => rw [hr, hr'] at h1; exact h1
      | ok s' => rw [hr, hr'] at h1; exact h1.elim
    | ok s =>
      cases hr' : genNode n { functions := F', current_instructions := c } with
      | err e' s' => rw [hr, hr'] at h1; exact h1.elim
      | ok s' =>
        rw [hr, hr'] at h1
        obtain ⟨hc, D, hF, hF'⟩ := h1
        cases s with
        | mk fs cs =>
          cases s' with
          | mk fs' cs' =>
            simp only at hc hF hF'
            subst hc hF hF'
            exact FnAligned_weaken F F' D _ _
              (ih (fun x hx => hl x (List.mem_cons_of_mem _ hx)) (D ++ F) (D ++ F') cs)

/-- Sequencing preserves alignment: an aligned result fed into aligned
continuations stays aligned (the `Rust ?` propagation pattern). -/
theorem alignBind (F F' : List (String × Func)) (r r' : GenRes)
    (h : FnAligned F F' r r') (k k' : CodeGenerator → GenRes)
    (hk : ∀ (D : List (String × Func)) (cs : List Instruction),
      FnAligned F F' (k { functions := D ++ F, current_instructions := cs })
        (k' { functions := D ++ F', current_instructions := cs }))
    (x x' : GenRes)
    (hxe : ∀ e s, r = .err e s → x = .err e s)
    (hxo : ∀ s, r = .ok s → x = k s)
    (hxe' : ∀ e s, r' = .err e s → x' = .err e s)
    (hxo' : ∀ s, r' = .ok s → x' = k' s) :
    FnAligned F F' x x' := by
  cases r with
  | err e s =>
    cases r' with
    | err e' s' => rw [hxe e s rfl, hxe' e' s' rfl]; exact h
    | ok s' => exact h.elim
  | ok s =>
    cases r' with
    | err e' s' => exact h.elim
    | ok s' =>
      rw [hxo s rfl, hxo' s' rfl]
      obtain ⟨hc, D, h1, h2⟩ := h
      cases s with
      | mk fs cs =>
        cases s' with
        | mk fs' cs' =>
          simp only at hc h1 h2
          subst hc h1 h2
          exact hk D cs

/-- An aligned result followed by a pure instruction-buffer transformation
stays aligned. -/
theorem alignPure (F F' : List (String × Func)) (r r' : GenRes)
    (h : FnAligned F F' r r') (φ : List Instruction → List Instruction)
    (x x' : GenRes)
    (hxe : ∀ e s, r = .err e s → x = .err e s)
    (hxo : ∀ s, r = .ok s →
      x = .ok { s with current_instructions := φ s.current_instructions })
    (hxe' : ∀ e s, r' = .err e s → x' = .err e s)
    (hxo' : ∀ s, r' = .ok s →
      x' = .ok { s with current_instructions := φ s.current_instructions }) :
    FnAligned F F' x x' := by
  cases r with
  | err e s =>
    cases r' with
    | err e' s' => rw [hxe e s rfl, hxe' e' s' rfl]; exact h
    | ok s' => exact h.elim
  | ok s =>
    cases r' with
    | err e' s' => exact h.elim
    | ok s' =>
      rw [hxo s rfl, hxo' s' rfl]
      obtain ⟨hc, D, h1, h2⟩ := h
      exact ⟨by rw [hc], D, h1, h2⟩

theorem genForInit_aligned (o : Option Node) (ho : ∀ x, o = some x → PAligned x)
    (F F' : List (String × Func)) (c : List Instruction) :
    FnAligned F F' (genForInit o { functions := F, current_instructions := c })
      (genForInit o { functions := F', current_instructions := c }) := by
  cases o with
  | none => exact ⟨rfl, [], rfl, rfl⟩
  | some x => rw [genForInit_some, genForInit_some]; exact ho x rfl F F' c

theorem genForCond_aligned (o : Option Node) (ho : ∀ x, o = some x → PAligned x)
    (F F' : List (String × Func)) (c : List Instruction) :
    FnAligned F F' (genForCond o { functions := F, current_instructions := c })
      (genForCond o { functions := F', current_instructions := c }) := by
  cases o with
  | none => exact ⟨rfl, [], rfl, rfl⟩
  | some x => rw [genForCond_some, genForCond_some]; exact ho x rfl F F' c

theorem genForIncr_aligned (o : Option Node) (ho : ∀ x, o = some x → PAligned x)
    (F F' : List (String × Func)) (c : List Instruction) :
    FnAligned F F' (genForIncr o { functions := F, current_instructions := c })
      (genForIncr o { functions := F', current_instructions := c }) := by
  cases o with
  | none => exact ⟨rfl, [], rfl, rfl⟩
  | some x =>
    rw [genForIncr_some, genForIncr_some]
    exact alignPure F F' _ _ (ho x rfl F F' c) (fun cur => cur ++ [.Pop]) _ _
      (fun e s h => by rw [h]; try rfl) (fun s h => by rw [h]; try rfl)
      (fun e s h => by rw [h]; try rfl) (fun s h => by rw [h]; try rfl)

theorem genRetVal_aligned (o : Option Node) (ho : ∀ x, o = some x → PAligned x)
    (F F' : List (String × Func)) (c : List Instruction) :
    FnAligned F F' (genRetVal o { functions := F, current_instructions := c })
      (genRetVal o { functions := F', current_instructions := c }) := by
  cases o with
  | none => exact ⟨rfl, [], rfl, rfl⟩
  | some x => rw [genRetVal_some, genRetVal_some]; exact ho x rfl F F' c

theorem genElemKey_aligned (o : Option Node) (ho : ∀ x, o = some x → PAligned x)
    (F F' : List (String × Func)) (c : List Instruction) :
    FnAligned F F' (genElemKey o { functions := F, current_instructions := c })
      (genElemKey o { functions := F', current_instructions := c }) := by
  cases o with
  | none => exact ⟨rfl, [], rfl, rfl⟩
  | some x =>
    rw [genElemKey_some, genElemKey_some]
    exact alignPure F F' _ _ (ho x rfl F F' c) (fun cur => cur ++ [.ArraySet]) _ _
      (fun e s h => by rw [h]; try rfl) (fun s h => by rw [h]; try rfl)
      (fun e s h => by rw [h]; try rfl) (fun s h => by rw [h]; try rfl)

/-- `genIfEnd (some els)` at an explicit state, with `emit`/`setInstr`
unfolded to record form (definitional restatement of `genIfEnd_some`). -/
theorem genIfEnd_some_norm (els : Node) (jte : Nat) (F : List (String × Func))
    (c : List Instruction) :
    genIfEnd (some els) jte { functions := F, current_instructions := c } =
      (match genNode els
          { functions := F
            current_instructions :=
              ((c ++ [Instruction.Jump 0]).set jte
                (Instruction.JumpIfFalse (c ++ [Instruction.Jump 0]).length)) ++
                [Instruction.Label (c ++ [Instruction.Jump 0]).length] } with
       | .err e s6 => .err e s6
       | .ok s6 =>
         .ok { functions := s6.functions
               current_instructions :=
                 (s6.current_instructions.set c.length
                   (Instruction.Jump s6.current_instructions.length)) ++
                   [Instruction.Label s6.current_instructions.length] }) := rfl

theorem genIfEnd_aligned (eb : Option Node) (heb : ∀ x, eb = some x → PAligned x)
    (jte : Nat) (F F' : List (String × Func)) (c : List Instruction) :
    FnAligned F F' (genIfEnd eb jte { functions := F, current_instructions := c })
      (genIfEnd eb jte { functions := F', current_instructions := c }) := by
  cases eb with
  | none => rw [genIfEnd_none, genIfEnd_none]; exact ⟨rfl, [], rfl, rfl⟩
  | some els =>
    rw [genIfEnd_some_norm, genIfEnd_some_norm]
    exact alignPure F F' _ _
      (heb els rfl F F'
        (((c ++ [Instruction.Jump 0]).set jte
          (Instruction.JumpIfFalse (c ++ [Instruction.Jump 0]).length)) ++
          [Instruction.Label (c ++ [Instruction.Jump 0]).length]))
      (fun cur => (cur.set c.length (Instruction.Jump cur.length)) ++
        [Instruction.Label cur.length]) _ _
      (fun e s h => by rw [h]; try rfl) (fun s h => by rw [h]; try rfl)
      (fun e s h => by rw [h]; try rfl) (fun s h => by rw [h]; try rfl)

theorem genArgsRev_aligned (args : List Node) (hl : ∀ x ∈ args, PAligned x)
    (F F' : List (String × Func)) (c : List Instruction) :
    FnAligned F F' (genArgsRev args { functions := F, current_instructions := c })
      (genArgsRev args { functions := F', current_instructions := c }) := by
  induction args generalizing F F' c with
  | nil => exact ⟨rfl, [], rfl, rfl⟩
  | cons a rest ih =>
    rw [genArgsRev_cons, genArgsRev_cons]
    refine alignBind F F' _ _
      (ih (fun x hx => hl x (List.mem_cons_of_mem _ hx)) F F' c)
      (genNode a) (genNode a) ?_ _ _
      (fun e s h => by rw [h]; try rfl) (fun s h => by rw [h]; try rfl)
      (fun e s h => by rw [h]; try rfl) (fun s h => by rw [h]; try rfl)
    intro D cs
    exact FnAligned_weaken F F' D _ _
      (hl a (List.mem_cons_self a rest) (D ++ F) (D ++ F') cs)

theorem genEchoArgs_aligned (l : List Node) (hl : ∀ x ∈ l, PAligned x)
    (F F' : List (String × Func)) (c : List Instruction) :
    FnAligned F F' (genEchoArgs l { functions := F, current_instructions := c })
      (genEchoArgs l { functions := F', current_instructions := c }) := by
  induction l generalizing F F' c with
  | nil => exact ⟨rfl, [], rfl, rfl⟩
  | cons e rest ih =>
    cases rest with
    | nil =>
      rw [genEchoArgs_one, genEchoArgs_one]
      exact alignPure F F' _ _ (hl e (List.mem_cons_self e []) F F' c)
        (fun cur => cur ++ [.EchoLine]) _ _
        (fun e1 s h => by rw [h]; try rfl) (fun s h => by rw [h]; try rfl)
        (fun e1 s h => by rw [h]; try rfl) (fun s h => by rw [h]; try rfl)
    | cons e2 rest2 =>
      rw [genEchoArgs_cons, genEchoArgs_cons]
      refine alignBind F F' _ _ (hl e (List.mem_cons_self e _) F F' c)
        (fun s1 => genEchoArgs (e2 :: rest2) (emit .Echo s1))
        (fun s1 => genEchoArgs (e2 :: rest2) (emit .Echo s1)) ?_ _ _
        (fun e1 s h => by rw [h]; try rfl) (fun s h => by rw [h]; try rfl)
        (fun e1 s h => by rw [h]; try rfl) (fun s h => by rw [h]; try rfl)
      intro D cs
      exact FnAligned_weaken F F' D _ _
        (ih (fun x hx => hl x (List.mem_cons_of_mem _ hx)) (D ++ F) (D ++ F')
          (cs ++ [Instruction.Echo]))

theorem genElems_aligned (els : List (Option Node × Node))
    (hl : ∀ p ∈ els, (∀ x, p.1 = some x → PAligned x) ∧ PAligned p.2)
    (F F' : List (String × Func)) (c : List Instruction) :
    FnAligned F F' (genElems els { functions := F, current_instructions := c })
      (genElems els { functions := F', current_instructions := c }) := by
  induction els generalizing F F' c with
  | nil => exact ⟨rfl, [], rfl, rfl⟩
  | cons p rest ih =>
    rcases p with ⟨key, value⟩
    rw [genElems_cons, genElems_cons]
    have hp := hl (key, value) (List.mem_cons_self _ _)
    refine alignBind F F' _ _ (hp.2 F F' c)
      (fun s1 => match genElemKey key s1 with
        | .err e s2 => .err e s2
        | .ok s2 => genElems rest s2)
      (fun s1 => match genElemKey key s1 with
        | .err e s2 => .err e s2
        | .ok s2 => genElems rest s2) ?_ _ _
      (fun e1 s h => by rw [h]; try rfl) (fun s h => by rw [h]; try rfl)
      (fun e1 s h => by rw [h]; try rfl) (fun s h => by rw [h]; try rfl)
    intro D cs
    refine FnAligned_weaken F F' D _ _ ?_
    refine alignBind (D ++ F) (D ++ F') _ _
      (genElemKey_aligned key hp.1 (D ++ F) (D ++ F') cs)
      (genElems rest) (genElems rest) ?_ _ _
      (fun e1 s h => by beta_reduce; rw [h]; try rfl)
      (fun s h => by beta_reduce; rw [h]; try rfl)
      (fun e1 s h => by beta_reduce; rw [h]; try rfl)
      (fun s h => by beta_reduce; rw [h]; try rfl)
    intro D2 cs2
    have := ih (fun q hq => hl q (List.mem_cons_of_mem _ hq))
      (D2 ++ (D ++ F)) (D2 ++ (D ++ F')) cs2
    exact FnAligned_weaken (D ++ F) (D ++ F') D2 _ _ this

/-- Generation is independent of the starting function table: the emitted
instructions and error behaviour depend only on the node and the instruction
buffer, and new function entries are the same, prepended to whichever table
was present. -/
theorem genNode_aligned : ∀ n : Node, PAligned n := by
  refine nodeInd ⟨?_, ?_, ?_, ?_, ?_, ?_, ?_, ?_, ?_, ?_, ?_, ?_, ?_, ?_, ?_, ?_, ?_, ?_, ?_, ?_, ?_⟩
  case refine_1 =>
    intro l hl F F' c
    rw [genNode_program, genNode_program]
    exact genSeq_aligned l hl F F' c
  case refine_2 =>
    intro e he F F' c
    rw [genNode_exprStmt, genNode_exprStmt]
    have h1 := he F F' c
    cases hr : genNode e { functions := F, current_instructions := c } with
    | err er s =>
      cases hr' : genNode e { functions := F', current_instructions := c } with
      | err er' s' => rw [hr, hr'] at h1; exact h1
      | ok s' => rw [hr, hr'] at h1; exact h1.elim
    | ok s =>
      cases hr' : genNode e { functions := F', current_instructions := c } with
      | err er' s' => rw [hr, hr'] at h1; exact h1.elim
      | ok s' =>
        rw [hr, hr'] at h1
        obtain ⟨hc, D, h2, h3⟩ := h1
        exact ⟨by simp [emit, hc], D, h2, h3⟩
  case refine_3 =>
    intro l loc hl F F' c
    rw [genNode_block, genNode_block]
    exact genSeq_aligned l hl F F' c
  case refine_4 =>
    intro cnd tb eb loc hcnd htb heb F F' cur
    rw [genNode_if, genNode_if]
    have h1 := hcnd F F' cur
    cases hr : genNode cnd { functions := F, current_instructions := cur } with
    | err er s =>
      cases hr2 : genNode cnd { functions := F', current_instructions := cur } with
      | err er2 s2 => rw [hr, hr2] at h1; exact h1
      | ok s2 => rw [hr, hr2] at h1; exact h1.elim
    | ok s =>
      cases hr2 : genNode cnd { functions := F', current_instructions := cur } with
      | err er2 s2 => rw [hr, hr2] at h1; exact h1.elim
      | ok s2 =>
        rw [hr, hr2] at h1
        obtain ⟨hc, D, h2, h3⟩ := h1
        cases s with
        | mk fs cs =>
          cases s2 with
          | mk fs2 cs2 =>
            simp only at hc h2 h3
            subst hc h2 h3
            show FnAligned F F'
              (match genNode tb { functions := D ++ F, current_instructions := cs ++ [.JumpIfFalse 0] } with
               | .err e s3 => .err e s3
               | .ok s3 => genIfEnd eb cs.length s3)
              (match genNode tb { functions := D ++ F', current_instructions := cs ++ [.JumpIfFalse 0] } with
               | .err e s3 => .err e s3
               | .ok s3 => genIfEnd eb cs.length s3)
            have h4 := htb (D ++ F) (D ++ F') (cs ++ [.JumpIfFalse 0])
            cases hb : genNode tb { functions := D ++ F, current_instructions := cs ++ [.JumpIfFalse 0] } with
            | err er3 s3 =>
              cases hb2 : genNode tb { functions := D ++ F', current_instructions := cs ++ [.JumpIfFalse 0] } with
              | err er4 s4 => rw [hb, hb2] at h4; exact FnAligned_weaken F F' D _ _ h4
              | ok s4 => rw [hb, hb2] at h4; exact h4.elim
            | ok s3 =>
              cases hb2 : genNode tb { functions := D ++ F', current_instructions := cs ++ [.JumpIfFalse 0] } with
              | err er4 s4 => rw [hb, hb2] at h4; exact h4.elim
              | ok s4 =>
                rw [hb, hb2] at h4
                obtain ⟨hc4, D4, h5, h6⟩ := h4
                cases s3 with
                | mk fs3 cs3 =>
                  cases s4 with
                  | mk fs4 cs4 =>
                    simp only at hc4 h5 h6
                    subst hc4 h5 h6
                    have h7 := genIfEnd_aligned eb heb cs.length
                      (D4 ++ (D ++ F)) (D4 ++ (D ++ F')) cs3
                    exact FnAligned_weaken F F' D _ _
                      (FnAligned_weaken (D ++ F) (D ++ F') D4 _ _ h7)
  case refine_5 =>
    intro cnd b loc hcnd hb F F' cur
    rw [genNode_while, genNode_while]
    show FnAligned F F'
      (match genNode cnd { functions := F, current_instructions := cur ++ [.Label cur.length] } with
       | .err e s2 => .err e s2
       | .ok s2 =>
         match genNode b (emit (.JumpIfFalse 0) s2) with
         | .err e s4 => .err e s4
         | .ok s4 =>
           .ok (emit (.Label (emit (.Jump cur.length) s4).current_instructions.length)
             (setInstr s2.current_instructions.length
               (.JumpIfFalse (emit (.Jump cur.length) s4).current_instructions.length)
               (emit (.Jump cur.length) s4))))
      (match genNode cnd { functions := F', current_instructions := cur ++ [.Label cur.length] } with
       | .err e s2 => .err e s2
       | .ok s2 =>
         match genNode b (emit (.JumpIfFalse 0) s2) with
         | .err e s4 => .err e s4
         | .ok s4 =>
           .ok (emit (.Label (emit (.Jump cur.length) s4).current_instructions.length)
             (setInstr s2.current_instructions.length
               (.JumpIfFalse (emit (.Jump cur.length) s4).current_instructions.length)
               (emit (.Jump cur.length) s4))))
    have h1 := hcnd F F' (cur ++ [.Label cur.length])
    cases hr : genNode cnd { functions := F, current_instructions := cur ++ [.Label cur.length] } with
    | err er s =>
      cases hr2 : genNode cnd { functions := F', current_instructions := cur ++ [.Label cur.length] } with
      | err er2 s2 => rw [hr, hr2] at h1; exact h1
      | ok s2 => rw [hr, hr2] at h1; exact h1.elim
    | ok s =>
      cases hr2 : genNode cnd { functions := F', current_instructions := cur ++ [.Label cur.length] } with
      | err er2 s2 => rw [hr, hr2] at h1; exact h1.elim
      | ok s2 =>
        rw [hr, hr2] at h1
        obtain ⟨hc, D, h2, h3⟩ := h1
        cases s with
        | mk fs cs =>
          cases s2 with
          | mk fs2 cs2 =>
            simp only at hc h2 h3
            subst hc h2 h3
            show FnAligned F F'
              (match genNode b { functions := D ++ F, current_instructions := cs ++ [.JumpIfFalse 0] } with
               | .err e s4 => .err e s4
               | .ok s4 =>
                 .ok (emit (.Label (emit (.Jump cur.length) s4).current_instructions.length)
                   (setInstr cs.length
                     (.JumpIfFalse (emit (.Jump cur.length) s4).current_instructions.length)
                     (emit (.Jump cur.length) s4))))
              (match genNode b { functions := D ++ F', current_instructions := cs ++ [.JumpIfFalse 0] } with
               | .err e s4 => .err e s4
               | .ok s4 =>
                 .ok (emit (.Label (emit (.Jump cur.length) s4).current_instructions.length)
                   (setInstr cs.length
                     (.JumpIfFalse (emit (.Jump cur.length) s4).current_instructions.length)
                     (emit (.Jump cur.length) s4))))
            have h4 := hb (D ++ F) (D ++ F') (cs ++ [.JumpIfFalse 0])
            cases hbr : genNode b { functions := D ++ F, current_instructions := cs ++ [.JumpIfFalse 0] } with
            | err er3 s3 =>
              cases hbr2 : genNode b { functions := D ++ F', current_instructions := cs ++ [.JumpIfFalse 0] } with
              | err er4 s4 => rw [hbr, hbr2] at h4; exact FnAligned_weaken F F' D _ _ h4
              | ok s4 => rw [hbr, hbr2] at h4; exact h4.elim
            | ok s3 =>
              cases hbr2 : genNode b { functions := D ++ F', current_instructions := cs ++ [.JumpIfFalse 0] } with
              | err er4 s4 => rw [hbr, hbr2] at h4; exact h4.elim
              | ok s4 =>
                rw [hbr, hbr2] at h4
                obtain ⟨hc4, D4, h5, h6⟩ := h4
                cases s3 with
                | mk fs3 cs3 =>
                  cases s4 with
                  | mk fs4 cs4 =>
                    simp only at hc4 h5 h6
                    subst hc4 h5 h6
                    refine ⟨rfl, D4 ++ D, ?_, ?_⟩
                    · show D4 ++ (D ++ F) = (D4 ++ D) ++ F
                      rw [List.append_assoc]
                    · show D4 ++ (D ++ F') = (D4 ++ D) ++ F'
                      rw [List.append_assoc]
  case refine_6 =>
    intro init cond incr b loc hinit hcond hincr hb F F' cur
    rw [genNode_for, genNode_for]
    have h1 := genForInit_aligned init hinit F F' cur
    cases hr : genForInit init { functions := F, current_instructions := cur } with
    | err er s =>
      cases hr2 : genForInit init { functions := F', current_instructions := cur } with
      | err er2 s2 => rw [hr, hr2] at h1; exact h1
      | ok s2 => rw [hr, hr2] at h1; exact h1.elim
    | ok s =>
      cases hr2 : genForInit init { functions := F', current_instructions := cur } with
      | err er2 s2 => rw [hr, hr2] at h1; exact h1.elim
      | ok s2 =>
        rw [hr, hr2] at h1
        obtain ⟨hc, D0, h2, h3⟩ := h1
        cases s with
        | mk fs cs0 =>
          cases s2 with
          | mk fs2 cs2x =>
            simp only at hc h2 h3
            subst hc h2 h3
            show FnAligned F F'
              (match genForCond cond { functions := D0 ++ F, current_instructions := cs0 ++ [.Label cs0.length] } with
               | .err e s2 => .err e s2
               | .ok s2 =>
                 match genNode b (emit (.JumpIfFalse 0) s2) with
                 | .err e s4 => .err e s4
                 | .ok s4 =>
                   match genForIncr incr s4 with
                   | .err e s5 => .err e s5
                   | .ok s5 =>
                     .ok (emit (.Label (emit (.Jump cs0.length) s5).current_instructions.length)
                       (setInstr s2.current_instructions.length
                         (.JumpIfFalse (emit (.Jump cs0.length) s5).current_instructions.length)
                         (emit (.Jump cs0.length) s5))))
              (match genForCond cond { functions := D0 ++ F', current_instructions := cs0 ++ [.Label cs0.length] } with
               | .err e s2 => .err e s2
               | .ok s2 =>
                 match genNode b (emit (.JumpIfFalse 0) s2) with
                 | .err e s4 => .err e s4
                 | .ok s4 =>
                   match genForIncr incr s4 with
                   | .err e s5 => .err e s5
                   | .ok s5 =>
                     .ok (emit (.Label (emit (.Jump cs0.length) s5).current_instructions.length)
                       (setInstr s2.current_instructions.length
                         (.JumpIfFalse (emit (.Jump cs0.length) s5).current_instructions.length)
                         (emit (.Jump cs0.length) s5))))
            have h4 := genForCond_aligned cond hcond (D0 ++ F) (D0 ++ F') (cs0 ++ [.Label cs0.length])
            cases hcr : genForCond cond { functions := D0 ++ F, current_instructions := cs0 ++ [.Label cs0.length] } with
            | err er3 s3 =>
              cases hcr2 : genForCond cond { functions := D0 ++ F', current_instructions := cs0 ++ [.Label cs0.length] } with
              | err er4 s4 => rw [hcr, hcr2] at h4; exact FnAligned_weaken F F' D0 _ _ h4
              | ok s4 => rw [hcr, hcr2] at h4; exact h4.elim
            | ok s3 =>
              cases hcr2 : genForCond cond { functions := D0 ++ F', current_instructions := cs0 ++ [.Label cs0.length] } with
              | err er4 s4 => rw [hcr, hcr2] at h4; exact h4.elim
              | ok s4 =>
                rw [hcr, hcr2] at h4
                obtain ⟨hc4, D2, h5, h6⟩ := h4
                cases s3 with
                | mk fs3 cs3 =>
                  cases s4 with
                  | mk fs4 cs4x =>
                    simp only at hc4 h5 h6
                    subst hc4 h5 h6
                    show FnAligned F F'
                      (match genNode b { functions := D2 ++ (D0 ++ F), current_instructions := cs3 ++ [.JumpIfFalse 0] } with
                       | .err e s4 => .err e s4
                       | .ok s4 =>
                         match genForIncr incr s4 with
                         | .err e s5 => .err e s5
                         | .ok s5 =>
                           .ok (emit (.Label (emit (.Jump cs0.length) s5).current_instructions.length)
                             (setInstr cs3.length
                               (.JumpIfFalse (emit (.Jump cs0.length) s5).current_instructions.length)
                               (emit (.Jump cs0.length) s5))))
                      (match genNode b { functions := D2 ++ (D0 ++ F'), current_instructions := cs3 ++ [.JumpIfFalse 0] } with
                       | .err e s4 => .err e s4
                       | .ok s4 =>
                         match genForIncr incr s4 with
                         | .err e s5 => .err e s5
                         | .ok s5 =>
                           .ok (emit (.Label (emit (.Jump cs0.length) s5).current_instructions.length)
                             (setInstr cs3.length
                               (.JumpIfFalse (emit (.Jump cs0.length) s5).current_instructions.length)
                               (emit (.Jump cs0.length) s5))))
                    have h7 := hb (D2 ++ (D0 ++ F)) (D2 ++ (D0 ++ F')) (cs3 ++ [.JumpIfFalse 0])
                    cases hbr : genNode b { functions := D2 ++ (D0 ++ F), current_instructions := cs3 ++ [.JumpIfFalse 0] } with
                    | err er5 s5 =>
                      cases hbr2 : genNode b { functions := D2 ++ (D0 ++ F'), current_instructions := cs3 ++ [.JumpIfFalse 0] } with
                      | err er6 s6 =>
                        rw [hbr, hbr2] at h7
                        exact FnAligned_weaken F F' D0 _ _
                          (FnAligned_weaken (D0 ++ F) (D0 ++ F') D2 _ _ h7)
                      | ok s6 => rw [hbr, hbr2] at h7; exact h7.elim
                    | ok s5 =>
                      cases hbr2 : genNode b { functions := D2 ++ (D0 ++ F'), current_instructions := cs3 ++ [.JumpIfFalse 0] } with
                      | err er6 s6 => rw [hbr, hbr2] at h7; exact h7.elim
                      | ok s6 =>
                        rw [hbr, hbr2] at h7
                        obtain ⟨hc7, D4, h8, h9⟩ := h7
                        cases s5 with
                        | mk fs5 cs5 =>
                          cases s6 with
                          | mk fs6 cs6x =>
                            simp only at hc7 h8 h9
                            subst hc7 h8 h9
                            show FnAligned F F'
                              (match genForIncr incr { functions := D4 ++ (D2 ++ (D0 ++ F)), current_instructions := cs5 } with
                               | .err e s5 => .err e s5
                               | .ok s5 =>
                                 .ok (emit (.Label (emit (.Jump cs0.length) s5).current_instructions.length)
                                   (setInstr cs3.length
                                     (.JumpIfFalse (emit (.Jump cs0.length) s5).current_instructions.length)
                                     (emit (.Jump cs0.length) s5))))
                              (match genForIncr incr { functions := D4 ++ (D2 ++ (D0 ++ F')), current_instructions := cs5 } with
                               | .err e s5 => .err e s5
                               | .ok s5 =>
                                 .ok (emit (.Label (emit (.Jump cs0.length) s5).current_instructions.length)
                                   (setInstr cs3.length
                                     (.JumpIfFalse (emit (.Jump cs0.length) s5).current_instructions.length)
                                     (emit (.Jump cs0.length) s5))))
                            have h10 := genForIncr_aligned incr hincr
                              (D4 ++ (D2 ++ (D0 ++ F))) (D4 ++ (D2 ++ (D0 ++ F'))) cs5
                            cases hir : genForIncr incr { functions := D4 ++ (D2 ++ (D0 ++ F)), current_instructions := cs5 } with
                            | err er7 s7 =>
                              cases hir2 : genForIncr incr { functions := D4 ++ (D2 ++ (D0 ++ F')), current_instructions := cs5 } with
                              | err er8 s8 =>
                                rw [hir, hir2] at h10
                                exact FnAligned_weaken F F' D0 _ _
                                  (FnAligned_weaken (D0 ++ F) (D0 ++ F') D2 _ _
                                    (FnAligned_weaken (D2 ++ (D0 ++ F)) (D2 ++ (D0 ++ F')) D4 _ _ h10))
                              | ok s8 => rw [hir, hir2] at h10; exact h10.elim
                            | ok s7 =>
                              cases hir2 : genForIncr incr { functions := D4 ++ (D2 ++ (D0 ++ F')), current_instructions := cs5 } with
                              | err er8 s8 => rw [hir, hir2] at h10; exact h10.elim
                              | ok s8 =>
                                rw [hir, hir2] at h10
                                obtain ⟨hc10, D5, h11, h12⟩ := h10
                                cases s7 with
                                | mk fs7 cs7 =>
                                  cases s8 with
                                  | mk fs8 cs8x =>
                                    simp only at hc10 h11 h12
                                    subst hc10 h11 h12
                                    refine ⟨rfl, D5 ++ (D4 ++ (D2 ++ D0)), ?_, ?_⟩
                                    · show D5 ++ (D4 ++ (D2 ++ (D0 ++ F))) =
                                        (D5 ++ (D4 ++ (D2 ++ D0))) ++ F
                                      simp [List.append_assoc]
                                    · show D5 ++ (D4 ++ (D2 ++ (D0 ++ F'))) =
                                        (D5 ++ (D4 ++ (D2 ++ D0))) ++ F'
                                      simp [List.append_assoc]
  case refine_7 =>
    intro a vv kv b loc hA hB F F' c
    rw [genNode_foreach, genNode_foreach]
    have h1 := hA F F' c
    cases hr : genNode a { functions := F, current_instructions := c } with
    | err er s =>
      cases hr2 : genNode a { functions := F', current_instructions := c } with
      | err er2 s2 => rw [hr, hr2] at h1; exact h1
      | ok s2 => rw [hr, hr2] at h1; exact h1.elim
    | ok s =>
      cases hr2 : genNode a { functions := F', current_instructions := c } with
      | err er2 s2 => rw [hr, hr2] at h1; exact h1.elim
      | ok s2 =>
        rw [hr, hr2] at h1
        obtain ⟨hc, D, h2, h3⟩ := h1
        exact ⟨rfl, hc, D, h2, h3⟩
  case refine_8 =>
    intro v loc hv F F' c
    rw [genNode_returnStmt, genNode_returnStmt]
    have h1 := genRetVal_aligned v hv F F' c
    cases hr : genRetVal v { functions := F, current_instructions := c } with
    | err er s =>
      cases hr2 : genRetVal v { functions := F', current_instructions := c } with
      | err er2 s2 => rw [hr, hr2] at h1; exact h1
      | ok s2 => rw [hr, hr2] at h1; exact h1.elim
    | ok s =>
      cases hr2 : genRetVal v { functions := F', current_instructions := c } with
      | err er2 s2 => rw [hr, hr2] at h1; exact h1.elim
      | ok s2 =>
        rw [hr, hr2] at h1
        obtain ⟨hc, D, h2, h3⟩ := h1
        exact ⟨by simp [emit, hc], D, h2, h3⟩
  case refine_9 =>
    intro l loc hl F F' c
    rw [genNode_echo, genNode_echo]
    exact genEchoArgs_aligned l hl F F' c
  case refine_10 =>
    intro nm i loc hi F F' c
    cases i with
    | none =>
      rw [genNode_varDecl_none, genNode_varDecl_none]
      exact ⟨rfl, [], rfl, rfl⟩
    | some ini =>
      rw [genNode_varDecl_some, genNode_varDecl_some]
      have h1 := hi ini rfl F F' c
      cases hr : genNode ini { functions := F, current_instructions := c } with
      | err er s =>
        cases hr2 : genNode ini { functions := F', current_instructions := c } with
        | err er2 s2 => rw [hr, hr2] at h1; exact h1
        | ok s2 => rw [hr, hr2] at h1; exact h1.elim
      | ok s =>
        cases hr2 : genNode ini { functions := F', current_instructions := c } with
        | err er2 s2 => rw [hr, hr2] at h1; exact h1.elim
        | ok s2 =>
          rw [hr, hr2] at h1
          obtain ⟨hc, D, h2, h3⟩ := h1
          exact ⟨by simp [emit, hc], D, h2, h3⟩
  case refine_11 =>
    intro nm ps b loc hb F F' cur
    rw [genNode_funcDecl, genNode_funcDecl]
    show FnAligned F F'
      (match genNode b { functions := F, current_instructions := [] } with
       | .err e s2 => .err e s2
       | .ok s2 =>
         .ok { functions :=
                 (nm,
                   { name := nm
                     param_count := ps.length
                     instructions :=
                       if s2.current_instructions.any isReturnInstr then
                         s2.current_instructions
                       else
                         s2.current_instructions ++ [.PushNull, .Return] }) :: s2.functions
               current_instructions := cur })
      (match genNode b { functions := F', current_instructions := [] } with
       | .err e s2 => .err e s2
       | .ok s2 =>
         .ok { functions :=
                 (nm,
                   { name := nm
                     param_count := ps.length
                     instructions :=
                       if s2.current_instructions.any isReturnInstr then
                         s2.current_instructions
                       else
                         s2.current_instructions ++ [.PushNull, .Return] }) :: s2.functions
               current_instructions := cur })
    have h1 := hb F F' []
    cases hr : genNode b { functions := F, current_instructions := [] } with
    | err er s =>
      cases hr2 : genNode b { functions := F', current_instructions := [] } with
      | err er2 s2 => rw [hr, hr2] at h1; exact h1
      | ok s2 => rw [hr, hr2] at h1; exact h1.elim
    | ok s =>
      cases hr2 : genNode b { functions := F', current_instructions := [] } with
      | err er2 s2 => rw [hr, hr2] at h1; exact h1.elim
      | ok s2 =>
        rw [hr, hr2] at h1
        obtain ⟨hc, D, h2, h3⟩ := h1
        cases s with
        | mk fs cs =>
          cases s2 with
          | mk fs2 cs2 =>
            simp only at hc h2 h3
            subst hc h2 h3
            refine ⟨rfl, (nm,
              { name := nm
                param_count := ps.length
                instructions :=
                  if cs.any isReturnInstr then cs else cs ++ [.PushNull, .Return] }) :: D,
              rfl, rfl⟩
  case refine_12 =>
    intro op l r loc hL hR F F' c
    by_cases hop : op = BinaryOp.Assign
    · subst hop
      rw [genNode_assign, genNode_assign]
      cases hat : assignTarget l with
      | none => exact ⟨rfl, rfl, [], rfl, rfl⟩
      | some name =>
        show FnAligned F F'
          (match genNode r { functions := F, current_instructions := c } with
           | .err e s1 => .err e s1
           | .ok s1 => .ok (emit (.LoadVar name) (emit (.StoreVar name) s1)))
          (match genNode r { functions := F', current_instructions := c } with
           | .err e s1 => .err e s1
           | .ok s1 => .ok (emit (.LoadVar name) (emit (.StoreVar name) s1)))
        have h1 := hR F F' c
        cases hr : genNode r { functions := F, current_instructions := c } with
        | err er s =>
          cases hr2 : genNode r { functions := F', current_instructions := c } with
          | err er2 s2 => rw [hr, hr2] at h1; exact h1
          | ok s2 => rw [hr, hr2] at h1; exact h1.elim
        | ok s =>
          cases hr2 : genNode r { functions := F', current_instructions := c } with
          | err er2 s2 => rw [hr, hr2] at h1; exact h1.elim
          | ok s2 =>
            rw [hr, hr2] at h1
            obtain ⟨hc, D, h2, h3⟩ := h1
            exact ⟨by simp [emit, hc], D, h2, h3⟩
    · rw [genNode_binary op l r loc { functions := F, current_instructions := c } hop,
        genNode_binary op l r loc { functions := F', current_instructions := c } hop]
      have h1 := hL F F' c
      cases hr : genNode l { functions := F, current_instructions := c } with
      | err er s =>
        cases hr2 : genNode l { functions := F', current_instructions := c } with
        | err er2 s2 => rw [hr, hr2] at h1; exact h1
        | ok s2 => rw [hr, hr2] at h1; exact h1.elim
      | ok s =>
        cases hr2 : genNode l { functions := F', current_instructions := c } with
        | err er2 s2 => rw [hr, hr2] at h1; exact h1.elim
        | ok s2 =>
          rw [hr, hr2] at h1
          obtain ⟨hc, D, h2, h3⟩ := h1
          cases s with
          | mk fs cs =>
            cases s2 with
            | mk fs2 cs2 =>
              simp only at hc h2 h3
              subst hc h2 h3
              show FnAligned F F'
                (match genNode r { functions := D ++ F, current_instructions := cs } with
                 | .err e s2 => .err e s2
                 | .ok s2 => .ok (emit (binOpInstr op) s2))
                (match genNode r { functions := D ++ F', current_instructions := cs } with
                 | .err e s2 => .err e s2
                 | .ok s2 => .ok (emit (binOpInstr op) s2))
              have h4 := hR (D ++ F) (D ++ F') cs
              cases hrr : genNode r { functions := D ++ F, current_instructions := cs } with
              | err er3 s3 =>
                cases hrr2 : genNode r { functions := D ++ F', current_instructions := cs } with
                | err er4 s4 => rw [hrr, hrr2] at h4; exact FnAligned_weaken F F' D _ _ h4
                | ok s4 => rw [hrr, hrr2] at h4; exact h4.elim
              | ok s3 =>
                cases hrr2 : genNode r { functions := D ++ F', current_instructions := cs } with
                | err er4 s4 => rw [hrr, hrr2] at h4; exact h4.elim
                | ok s4 =>
                  rw [hrr, hrr2] at h4
                  obtain ⟨hc4, D4, h5, h6⟩ := h4
                  cases s3 with
                  | mk fs3 cs3 =>
                    cases s4 with
                    | mk fs4 cs4 =>
                      simp only at hc4 h5 h6
                      subst hc4 h5 h6
                      refine ⟨rfl, D4 ++ D, ?_, ?_⟩
                      · show D4 ++ (D ++ F) = (D4 ++ D) ++ F
                        rw [List.append_assoc]
                      · show D4 ++ (D ++ F') = (D4 ++ D) ++ F'
                        rw [List.append_assoc]
  case refine_13 =>
    intro op e loc he F F' c
    have h1 := he F F' c
    cases op with
    | Negate =>
      rw [genNode_unary, genNode_unary]
      show FnAligned F F'
        (match genNode e { functions := F, current_instructions := c } with
         | .err er s1 => .err er s1
         | .ok s1 => .ok (emit .Negate s1))
        (match genNode e { functions := F', current_instructions := c } with
         | .err er s1 => .err er s1
         | .ok s1 => .ok (emit .Negate s1))
      cases hr : genNode e { functions := F, current_instructions := c } with
      | err er s =>
        cases hr2 : genNode e { functions := F', current_instructions := c } with
        | err er2 s2 => rw [hr, hr2] at h1; exact h1
        | ok s2 => rw [hr, hr2] at h1; exact h1.elim
      | ok s =>
        cases hr2 : genNode e { functions := F', current_instructions := c } with
        | err er2 s2 => rw [hr, hr2] at h1; exact h1.elim
        | ok s2 =>
          rw [hr, hr2] at h1
          obtain ⟨hc, D, h2, h3⟩ := h1
          exact ⟨by simp [emit, hc], D, h2, h3⟩
    | LogicalNot =>
      rw [genNode_unary, genNode_unary]
      show FnAligned F F'
        (match genNode e { functions := F, current_instructions := c } with
         | .err er s1 => .err er s1
         | .ok s1 => .ok (emit .LogicalNot s1))
        (match genNode e { functions := F', current_instructions := c } with
         | .err er s1 => .err er s1
         | .ok s1 => .ok (emit .LogicalNot s1))
      cases hr : genNode e { functions := F, current_instructions := c } with
      | err er s =>
        cases hr2 : genNode e { functions := F', current_instructions := c } with
        | err er2 s2 => rw [hr, hr2] at h1; exact h1
        | ok s2 => rw [hr, hr2] at h1; exact h1.elim
      | ok s =>
        cases hr2 : genNode e { functions := F', current_instructions := c } with
        | err er2 s2 => rw [hr, hr2] at h1; exact h1.elim
        | ok s2 =>
          rw [hr, hr2] at h1
          obtain ⟨hc, D, h2, h3⟩ := h1
          exact ⟨by simp [emit, hc], D, h2, h3⟩
  case refine_14 =>
    intro nm loc F F' c
    rw [genNode_variable, genNode_variable]
    exact ⟨rfl, [], rfl, rfl⟩
  case refine_15 =>
    intro nm args loc hargs F F' c
    rw [genNode_call, genNode_call]
    have h1 := genArgsRev_aligned args hargs F F' c
    cases hr : genArgsRev args { functions := F, current_instructions := c } with
    | err er s =>
      cases hr2 : genArgsRev args { functions := F', current_instructions := c } with
      | err er2 s2 => rw [hr, hr2] at h1; exact h1
      | ok s2 => rw [hr, hr2] at h1; exact h1.elim
    | ok s =>
      cases hr2 : genArgsRev args { functions := F', current_instructions := c } with
      | err er2 s2 => rw [hr, hr2] at h1; exact h1.elim
      | ok s2 =>
        rw [hr, hr2] at h1
        obtain ⟨hc, D, h2, h3⟩ := h1
        exact ⟨by simp [emit, hc], D, h2, h3⟩
  case refine_16 =>
    intro v loc F F' c
    rw [genNode_intLit, genNode_intLit]
    exact ⟨rfl, [], rfl, rfl⟩
  case refine_17 =>
    intro v loc F F' c
    rw [genNode_floatLit, genNode_floatLit]
    exact ⟨rfl, [], rfl, rfl⟩
  case refine_18 =>
    intro v loc F F' c
    rw [genNode_strLit, genNode_strLit]
    exact ⟨rfl, [], rfl, rfl⟩
  case refine_19 =>
    intro v loc F F' c
    rw [genNode_boolLit, genNode_boolLit]
    exact ⟨rfl, [], rfl, rfl⟩
  case refine_20 =>
    intro loc F F' c
    rw [genNode_nullLit, genNode_nullLit]
    exact ⟨rfl, [], rfl, rfl⟩
  case refine_21 =>
    intro els loc hl F F' c
    rw [genNode_arrayLit, genNode_arrayLit]
    exact genElems_aligned els hl F F' (c ++ [.CreateArray])

/-- The instruction sequence a `generate` call returns, when it succeeds. -/
def generateInstrs : GenerateRes → Option (List Instruction)
  | .ok i _ => some i
  | .err _ _ => none

/-- The error a `generate` call returns, when it fails. -/
def generateErr : GenerateRes → Option CompilerError
  | .ok _ _ => none
  | .err e _ => some e

/-- C3 (amended): `generate` clears the instruction buffer at the start of
each call, so the returned instruction sequence and the returned error of a
call on any generator state — in particular after arbitrary earlier
`generate` calls, or on the same tree twice — are identical, index for
index, to those of a freshly constructed generator.  (The function table is
not reset; see the counterexample.) -/
theorem c3_generate_buffer_reset (g : CodeGenerator) (t : Node) :
    generateInstrs (g.generate t) = generateInstrs (CodeGenerator.new.generate t) ∧
    generateErr (g.generate t) = generateErr (CodeGenerator.new.generate t) := by
  have h := genNode_aligned t g.functions [] []
  have e1 : g.generate t =
      (match genNode t { functions := g.functions, current_instructions := [] } with
       | .ok g1 => GenerateRes.ok g1.current_instructions g1
       | .err e g1 => GenerateRes.err e g1) := rfl
  have e2 : CodeGenerator.new.generate t =
      (match genNode t { functions := [], current_instructions := [] } with
       | .ok g1 => GenerateRes.ok g1.current_instructions g1
       | .err e g1 => GenerateRes.err e g1) := rfl
  rw [e1, e2]
  cases hr : genNode t { functions := g.functions, current_instructions := [] } with
  | ok s1 =>
    cases hr2 : genNode t { functions := [], current_instructions := [] } with
    | ok s2 =>
      rw [hr, hr2] at h
      obtain ⟨hc, D, h1, h2⟩ := h
      exact ⟨by simp [generateInstrs, hc], by simp [generateErr]⟩
    | err e2x s2 => rw [hr, hr2] at h; exact h.elim
  | err e1x s1 =>
    cases hr2 : genNode t { functions := [], current_instructions := [] } with
    | ok s2 => rw [hr, hr2] at h; exact h.elim
    | err e2x s2 =>
      rw [hr, hr2] at h
      exact ⟨by simp [generateInstrs], by simp [generateErr, h.1]⟩

/-- C3 counterexample to the claim as stated: after `generate` of a tree
declaring function `f`, a second `generate` call does not see the same
observable function table as a fresh generator — `f` is still there, because
`generate` clears only the instruction buffer, never the function table. -/
theorem c3_counterexample :
    lookupA "f"
        (genAfter (genAfter CodeGenerator.new
          (.FunctionDecl "f" [] (.BlockStmt [] L0) L0)) (.Program [])).functions ≠
      lookupA "f" (genAfter CodeGenerator.new (.Program [])).functions := by
  decide

/-! Jump-target well-formedness machinery for C1. -/

/-- Setting the element right after a prefix. -/
theorem set_len_append {α : Type} (X : List α) (a b : α) (Y : List α) :
    (X ++ a :: Y).set X.length b = X ++ b :: Y := by
  induction X with
  | nil => rfl
  | cons x X ih => simp [List.set, ih]

/-- Reading just after a prefix. -/
theorem getElem?_mid {α : Type} (A : List α) (x : α) (Y : List α) :
    (A ++ x :: Y)[A.length]? = some x := by
  rw [List.getElem?_append_right (Nat.le_refl _)]
  simp

/-- Reading at an offset into the tail after a prefix and one element. -/
theorem getElem?_tail {α : Type} (A : List α) (x : α) (Y : List α) (k : Nat) :
    (A ++ x :: Y)[A.length + 1 + k]? = Y[k]? := by
  rw [List.getElem?_append_right (by omega)]
  have h : A.length + 1 + k - A.length = k + 1 := by omega
  rw [h, List.getElem?_cons_succ]

theorem SC_nil (b : Nat) : SC b [] := by
  intro p t i hp ht
  simp at hp

theorem SC_noTarget (b : Nat) (Δ : List Instruction)
    (h : ∀ i ∈ Δ, targetOf i = none) : SC b Δ := by
  intro p t i hp ht
  obtain ⟨hlt, he⟩ := List.getElem?_eq_some.mp hp
  have hmem : i ∈ Δ := he ▸ List.getElem_mem hlt
  rw [h i hmem] at ht
  cases ht

theorem SC_append (b : Nat) (X Y : List Instruction)
    (hX : SC b X) (hY : SC (b + X.length) Y) : SC b (X ++ Y) := by
  intro p t i hp ht
  by_cases hplt : p < X.length
  · rw [List.getElem?_append_left hplt] at hp
    obtain ⟨hb, hL⟩ := hX p t i hp ht
    obtain ⟨hlt2, _⟩ := List.getElem?_eq_some.mp hL
    exact ⟨hb, by rw [List.getElem?_append_left hlt2]; exact hL⟩
  · rw [List.getElem?_append_right (by omega)] at hp
    obtain ⟨hb, hL⟩ := hY (p - X.length) t i hp ht
    refine ⟨by omega, ?_⟩
    rw [List.getElem?_append_right (by omega)]
    have h2 : t - b - X.length = t - (b + X.length) := by omega
    rw [h2]
    exact hL

/-- Shape of an `if` without `else`: condition code `A`, a conditional jump
over the then-code `B` to the closing label. -/
theorem SC_if_none (b : Nat) (A B : List Instruction) (e : Nat)
    (he : e = b + A.length + 1 + B.length)
    (hA : SC b A) (hB : SC (b + A.length + 1) B) :
    SC b (A ++ .JumpIfFalse e :: (B ++ [.Label e])) := by
  intro p t i hp ht
  by_cases h1 : p < A.length
  · rw [List.getElem?_append_left h1] at hp
    obtain ⟨hb, hL⟩ := hA p t i hp ht
    obtain ⟨hlt2, _⟩ := List.getElem?_eq_some.mp hL
    exact ⟨hb, by rw [List.getElem?_append_left hlt2]; exact hL⟩
  · by_cases h2 : p = A.length
    · subst h2
      rw [getElem?_mid] at hp
      injection hp with hi
      subst hi
      simp only [targetOf] at ht
      injection ht with hte
      subst hte
      refine ⟨by omega, ?_⟩
      have he2 : e - b = A.length + 1 + B.length := by omega
      rw [he2, getElem?_tail]
      have hBL : (B ++ [Instruction.Label e]) = B ++ Instruction.Label e :: [] := rfl
      rw [hBL, getElem?_mid]
    · have hk : p = A.length + 1 + (p - A.length - 1) := by omega
      rw [hk, getElem?_tail] at hp
      by_cases h3 : p - A.length - 1 < B.length
      · rw [List.getElem?_append_left h3] at hp
        obtain ⟨hb, hL⟩ := hB (p - A.length - 1) t i hp ht
        obtain ⟨hlt2, _⟩ := List.getElem?_eq_some.mp hL
        refine ⟨by omega, ?_⟩
        have h5 : t - b = A.length + 1 + (t - (b + A.length + 1)) := by omega
        rw [h5, getElem?_tail, List.getElem?_append_left hlt2]
        exact hL
      · rw [List.getElem?_append_right (by omega)] at hp
        rcases Nat.lt_or_ge (p - A.length - 1 - B.length) 1 with h4 | h4
        · have h0 : p - A.length - 1 - B.length = 0 := by omega
          rw [h0] at hp
          simp at hp
          rw [← hp] at ht
          simp [targetOf] at ht
        · rw [List.getElem?_eq_none (by simp; omega)] at hp
          cases hp

/-- Shape of a `while`/`for` loop: start label, condition code `A`, exit
conditional jump, body code `B`, back jump, exit label. -/
theorem SC_loop (b : Nat) (A B : List Instruction) (al : Nat)
    (hal : al = b + A.length + B.length + 3)
    (hA : SC (b + 1) A) (hB : SC (b + A.length + 2) B) :
    SC b (.Label b :: (A ++ .JumpIfFalse al :: (B ++ [.Jump b, .Label al]))) := by
  intro p t i hp ht
  cases p with
  | zero =>
    simp at hp
    rw [← hp] at ht
    simp [targetOf] at ht
  | succ q =>
    rw [List.getElem?_cons_succ] at hp
    by_cases h1 : q < A.length
    · rw [List.getElem?_append_left h1] at hp
      obtain ⟨hb, hL⟩ := hA q t i hp ht
      obtain ⟨hlt2, _⟩ := List.getElem?_eq_some.mp hL
      refine ⟨by omega, ?_⟩
      have h5 : t - b = (t - (b + 1)) + 1 := by omega
      rw [h5, List.getElem?_cons_succ, List.getElem?_append_left hlt2]
      exact hL
    · by_cases h2 : q = A.length
      · subst h2
        rw [getElem?_mid] at hp
        injection hp with hi
        subst hi
        simp only [targetOf] at ht
        injection ht with hte
        subst hte
        refine ⟨by omega, ?_⟩
        have h5 : al - b = (A.length + 1 + (B.length + 1)) + 1 := by omega
        rw [h5, List.getElem?_cons_succ, getElem?_tail]
        rw [List.getElem?_append_right (by omega)]
        have h6 : B.length + 1 - B.length = 1 := by omega
        rw [h6]
        simp
      · have hk : q = A.length + 1 + (q - A.length - 1) := by omega
        rw [hk, getElem?_tail] at hp
        by_cases h3 : q - A.length - 1 < B.length
        · rw [List.getElem?_append_left h3] at hp
          obtain ⟨hb, hL⟩ := hB (q - A.length - 1) t i hp ht
          obtain ⟨hlt2, _⟩ := List.getElem?_eq_some.mp hL
          refine ⟨by omega, ?_⟩
          have h5 : t - b = (A.length + 1 + (t - (b + A.length + 2))) + 1 := by omega
          rw [h5, List.getElem?_cons_succ, getElem?_tail, List.getElem?_append_left hlt2]
          exact hL
        · rw [List.getElem?_append_right (by omega)] at hp
          by_cases h4 : q - A.length - 1 - B.length = 0
          · rw [h4] at hp
            simp at hp
            rw [← hp] at ht
            simp only [targetOf] at ht
            injection ht with hte
            subst hte
            exact ⟨Nat.le_refl b, by simp⟩
          · by_cases h5 : q - A.length - 1 - B.length = 1
            · rw [h5] at hp
              simp at hp
              rw [← hp] at ht
              simp [targetOf] at ht
            · rw [List.getElem?_eq_none (by simp; omega)] at hp
              cases hp

/-- Shape of an `if` with `else`: condition code `A`, conditional jump to
the else label, then-code `B`, jump over the else to the closing label, else
label, else-code `D`, closing label. -/
theorem SC_if_some (b : Nat) (A B D : List Instruction) (e a : Nat)
    (he : e = b + A.length + B.length + 2)
    (ha : a = b + A.length + B.length + D.length + 3)
    (hA : SC b A) (hB : SC (b + A.length + 1) B)
    (hD : SC (b + A.length + B.length + 3) D) :
    SC b (A ++ .JumpIfFalse e ::
      (B ++ .Jump a :: (.Label e :: (D ++ [.Label a])))) := by
  intro p t i hp ht
  by_cases h1 : p < A.length
  · rw [List.getElem?_append_left h1] at hp
    obtain ⟨hb, hL⟩ := hA p t i hp ht
    obtain ⟨hlt2, _⟩ := List.getElem?_eq_some.mp hL
    exact ⟨hb, by rw [List.getElem?_append_left hlt2]; exact hL⟩
  · by_cases h2 : p = A.length
    · subst h2
      rw [getElem?_mid] at hp
      injection hp with hi
      subst hi
      simp only [targetOf] at ht
      injection ht with hte
      subst hte
      refine ⟨by omega, ?_⟩
      have h5 : e - b = A.length + 1 + (B.length + 1) := by omega
      rw [h5, getElem?_tail]
      rw [List.getElem?_append_right (by omega)]
      have h6 : B.length + 1 - B.length = 1 := by omega
      rw [h6]
      simp
    · have hk : p = A.length + 1 + (p - A.length - 1) := by omega
      rw [hk, getElem?_tail] at hp
      by_cases h3 : p - A.length - 1 < B.length
      · rw [List.getElem?_append_left h3] at hp
        obtain ⟨hb, hL⟩ := hB (p - A.length - 1) t i hp ht
        obtain ⟨hlt2, _⟩ := List.getElem?_eq_some.mp hL
        refine ⟨by omega, ?_⟩
        have h5 : t - b = A.length + 1 + (t - (b + A.length + 1)) := by omega
        rw [h5, getElem?_tail, List.getElem?_append_left hlt2]
        exact hL
      · rw [List.getElem?_append_right (by omega)] at hp
        by_cases h4 : p - A.length - 1 - B.length = 0
        · rw [h4] at hp
          simp at hp
          rw [← hp] at ht
          simp only [targetOf] at ht
          injection ht with hte
          subst hte
          refine ⟨by omega, ?_⟩
          have h5 : a - b = A.length + 1 + (B.length + 1 + (1 + D.length)) := by omega
          rw [h5, getElem?_tail]
          rw [List.getElem?_append_right (by omega)]
          have h6 : B.length + 1 + (1 + D.length) - B.length = D.length + 2 := by omega
          rw [h6, List.getElem?_cons_succ, List.getElem?_cons_succ]
          have h7 : (D ++ [Instruction.Label a]) = D ++ Instruction.Label a :: [] := rfl
          rw [h7, getElem?_mid]
        · by_cases h5 : p - A.length - 1 - B.length = 1
          · rw [h5] at hp
            simp at hp
            rw [← hp] at ht
            simp [targetOf] at ht
          · have hk2 : p - A.length - 1 - B.length =
                (p - A.length - B.length - 3) + 1 + 1 := by omega
            rw [hk2, List.getElem?_cons_succ, List.getElem?_cons_succ] at hp
            by_cases h6 : p - A.length - B.length - 3 < D.length
            · rw [List.getElem?_append_left h6] at hp
              obtain ⟨hb, hL⟩ := hD (p - A.length - B.length - 3) t i hp ht
              obtain ⟨hlt2, _⟩ := List.getElem?_eq_some.mp hL
              refine ⟨by omega, ?_⟩
              have h7 : t - b =
                  A.length + 1 + (B.length + 1 + (1 +
                    (t - (b + A.length + B.length + 3)))) := by omega
              rw [h7, getElem?_tail]
              rw [List.getElem?_append_right (by omega)]
              have h8 : B.length + 1 + (1 + (t - (b + A.length + B.length + 3))) -
                  B.length = (t - (b + A.length + B.length + 3)) + 1 + 1 := by omega
              rw [h8, List.getElem?_cons_succ, List.getElem?_cons_succ,
                List.getElem?_append_left hlt2]
              exact hL
            · by_cases h7 : p - A.length - B.length - 3 = D.length
              · rw [h7, List.getElem?_append_right (Nat.le_refl _)] at hp
                simp at hp
                rw [← hp] at ht
                simp [targetOf] at ht
              · rw [List.getElem?_eq_none (by simp; omega)] at hp
                cases hp

theorem ExtOk_refl (s : CodeGenerator) : ExtOk s s :=
  ⟨⟨[], by simp, SC_nil _⟩, id⟩

theorem ExtOk_trans (s1 s2 s3 : CodeGenerator)
    (h1 : ExtOk s1 s2) (h2 : ExtOk s2 s3) : ExtOk s1 s3 := by
  obtain ⟨⟨D1, hd1, hs1⟩, hf1⟩ := h1
  obtain ⟨⟨D2, hd2, hs2⟩, hf2⟩ := h2
  refine ⟨⟨D1 ++ D2, by rw [hd2, hd1, List.append_assoc], ?_⟩, fun h => hf2 (hf1 h)⟩
  refine SC_append _ _ _ hs1 ?_
  have hlen : s2.current_instructions.length =
      s1.current_instructions.length + D1.length := by rw [hd1]; simp
  exact hlen ▸ hs2

theorem ExtOk_emit (s : CodeGenerator) (i : Instruction)
    (h : targetOf i = none) : ExtOk s (emit i s) := by
  refine ⟨⟨[i], rfl, SC_noTarget _ _ ?_⟩, id⟩
  intro j hj
  rw [List.mem_singleton] at hj
  subst hj
  exact h

/-- `generate_node` on success extends the buffer by a self-contained slice
and keeps the function table well-formed. -/
def POk (n : Node) : Prop :=
  ∀ s s', genNode n s = .ok s' → ExtOk s s'

theorem genSeq_ext (l : List Node) (hl : ∀ x ∈ l, POk x) :
    ∀ s s', genSeq l s = .ok s' → ExtOk s s' := by
  induction l with
  | nil =>
    intro s s' h
    rw [genSeq_nil] at h
    injection h with h1
    subst h1
    exact ExtOk_refl s
  | cons n rest ih =>
    intro s s' h
    rw [genSeq_cons] at h
    cases hr : genNode n s with
    | err e s1 => rw [hr] at h; cases h
    | ok s1 =>
      rw [hr] at h
      have h2 : genSeq rest s1 = .ok s' := h
      exact ExtOk_trans s s1 s'
        (hl n (List.mem_cons_self n rest) s s1 hr)
        (ih (fun x hx => hl x (List.mem_cons_of_mem _ hx)) s1 s' h2)

theorem genArgsRev_ext (args : List Node) (hl : ∀ x ∈ args, POk x) :
    ∀ s s', genArgsRev args s = .ok s' → ExtOk s s' := by
  induction args with
  | nil =>
    intro s s' h
    rw [genArgsRev_nil] at h
    injection h with h1
    subst h1
    exact ExtOk_refl s
  | cons a rest ih =>
    intro s s' h
    rw [genArgsRev_cons] at h
    cases hr : genArgsRev rest s with
    | err e s1 => rw [hr] at h; cases h
    | ok s1 =>
      rw [hr] at h
      have h2 : genNode a s1 = .ok s' := h
      exact ExtOk_trans s s1 s'
        (ih (fun x hx => hl x (List.mem_cons_of_mem _ hx)) s s1 hr)
        (hl a (List.mem_cons_self a rest) s1 s' h2)

theorem genEchoArgs_ext (l : List Node) (hl : ∀ x ∈ l, POk x) :
    ∀ s s', genEchoArgs l s = .ok s' → ExtOk s s' := by
  induction l with
  | nil =>
    intro s s' h
    rw [genEchoArgs_nil] at h
    injection h with h1
    subst h1
    exact ExtOk_refl s
  | cons e rest ih =>
    intro s s' h
    cases rest with
    | nil =>
      rw [genEchoArgs_one] at h
      cases hr : genNode e s with
      | err er s1 => rw [hr] at h; cases h
      | ok s1 =>
        rw [hr] at h
        have h2 : GenRes.ok (emit .EchoLine s1) = .ok s' := h
        injection h2 with h3
        subst h3
        exact ExtOk_trans s s1 _ (hl e (List.mem_cons_self e []) s s1 hr)
          (ExtOk_emit s1 .EchoLine rfl)
    | cons e2 rest2 =>
      rw [genEchoArgs_cons] at h
      cases hr : genNode e s with
      | err er s1 => rw [hr] at h; cases h
      | ok s1 =>
        rw [hr] at h
        have h2 : genEchoArgs (e2 :: rest2) (emit .Echo s1) = .ok s' := h
        refine ExtOk_trans s s1 s' (hl e (List.mem_cons_self e _) s s1 hr) ?_
        refine ExtOk_trans s1 (emit .Echo s1) s' (ExtOk_emit s1 .Echo rfl) ?_
        exact ih (fun x hx => hl x (List.mem_cons_of_mem _ hx)) (emit .Echo s1) s' h2

theorem genElemKey_ext (o : Option Node) (ho : ∀ x, o = some x → POk x) :
    ∀ s s', genElemKey o s = .ok s' → ExtOk s s' := by
  intro s s' h
  cases o with
  | none =>
    rw [genElemKey_none] at h
    injection h with h1
    subst h1
    exact ExtOk_emit s .ArrayPush rfl
  | some kn =>
    rw [genElemKey_some] at h
    cases hr : genNode kn s with
    | err e s1 => rw [hr] at h; cases h
    | ok s1 =>
      rw [hr] at h
      have h2 : GenRes.ok (emit .ArraySet s1) = .ok s' := h
      injection h2 with h3
      subst h3
      exact ExtOk_trans s s1 _ (ho kn rfl s s1 hr) (ExtOk_emit s1 .ArraySet rfl)

theorem genElems_ext (els : List (Option Node × Node))
    (hl : ∀ p ∈ els, (∀ x, p.1 = some x → POk x) ∧ POk p.2) :
    ∀ s s', genElems els s = .ok s' → ExtOk s s' := by
  induction els with
  | nil =>
    intro s s' h
    rw [genElems_nil] at h
    injection h with h1
    subst h1
    exact ExtOk_refl s
  | cons p rest ih =>
    rcases p with ⟨key, value⟩
    intro s s' h
    rw [genElems_cons] at h
    cases hr : genNode value s with
    | err e s1 => rw [hr] at h; cases h
    | ok s1 =>
      rw [hr] at h
      have h1 : (match genElemKey key s1 with
        | GenRes.err e s2 => GenRes.err e s2
        | GenRes.ok s2 => genElems rest s2) = GenRes.ok s' := h
      cases hk : genElemKey key s1 with
      | err e s2 => rw [hk] at h1; cases h1
      | ok s2 =>
        rw [hk] at h1
        have h2 : genElems rest s2 = .ok s' := h1
        have hp := hl (key, value) (List.mem_cons_self _ _)
        refine ExtOk_trans s s1 s' (hp.2 s s1 hr) ?_
        refine ExtOk_trans s1 s2 s' (genElemKey_ext key hp.1 s1 s2 hk) ?_
        exact ih (fun q hq => hl q (List.mem_cons_of_mem _ hq)) s2 s' h2

theorem genForInit_ext (o : Option Node) (ho : ∀ x, o = some x → POk x) :
    ∀ s s', genForInit o s = .ok s' → ExtOk s s' := by
  intro s s' h
  cases o with
  | none =>
    rw [genForInit_none] at h
    injection h with h1
    subst h1
    exact ExtOk_refl s
  | some x => exact ho x rfl s s' (by rw [← genForInit_some]; exact h)

theorem genForCond_ext (o : Option Node) (ho : ∀ x, o = some x → POk x) :
    ∀ s s', genForCond o s = .ok s' → ExtOk s s' := by
  intro s s' h
  cases o with
  | none =>
    rw [genForCond_none] at h
    injection h with h1
    subst h1
    exact ExtOk_emit s (.PushBool true) rfl
  | some x => exact ho x rfl s s' (by rw [← genForCond_some]; exact h)

theorem genForIncr_ext (o : Option Node) (ho : ∀ x, o = some x → POk x) :
    ∀ s s', genForIncr o s = .ok s' → ExtOk s s' := by
  intro s s' h
  cases o with
  | none =>
    rw [genForIncr_none] at h
    injection h with h1
    subst h1
    exact ExtOk_refl s
  | some x =>
    rw [genForIncr_some] at h
    cases hr : genNode x s with
    | err e s1 => rw [hr] at h; cases h
    | ok s1 =>
      rw [hr] at h
      have h2 : GenRes.ok (emit .Pop s1) = .ok s' := h
      injection h2 with h3
      subst h3
      exact ExtOk_trans s s1 _ (ho x rfl s s1 hr) (ExtOk_emit s1 .Pop rfl)

theorem genRetVal_ext (o : Option Node) (ho : ∀ x, o = some x → POk x) :
    ∀ s s', genRetVal o s = .ok s' → ExtOk s s' := by
  intro s s' h
  cases o with
  | none =>
    rw [genRetVal_none] at h
    injection h with h1
    subst h1
    exact ExtOk_emit s .PushNull rfl
  | some x => exact ho x rfl s s' (by rw [← genRetVal_some]; exact h)

/-- Zeta-reduced unfolding of `genIfEnd` in the `some` (else-branch) case. -/
theorem genIfEnd_some_eq (els : Node) (jte : Nat) (s3 : CodeGenerator) :
    genIfEnd (some els) jte s3 =
      (match genNode els (emit (Instruction.Label (emit (Instruction.Jump 0) s3).current_instructions.length)
          (setInstr jte (Instruction.JumpIfFalse (emit (Instruction.Jump 0) s3).current_instructions.length)
            (emit (Instruction.Jump 0) s3))) with
       | .err e s6 => .err e s6
       | .ok s6 =>
         .ok (emit (Instruction.Label s6.current_instructions.length)
           (setInstr s3.current_instructions.length
             (Instruction.Jump s6.current_instructions.length) s6))) := rfl

theorem genNode_extOk : ∀ n : Node, POk n := by
  refine nodeInd ⟨?_, ?_, ?_, ?_, ?_, ?_, ?_, ?_, ?_, ?_, ?_, ?_, ?_, ?_, ?_, ?_, ?_, ?_, ?_, ?_, ?_⟩
  case refine_1 =>
    intro l hl s s' h
    rw [genNode_program] at h
    exact genSeq_ext l hl s s' h
  case refine_2 =>
    intro e he s s' h
    rw [genNode_exprStmt] at h
    cases hr : genNode e s with
    | err er s1 => rw [hr] at h; cases h
    | ok s1 =>
      rw [hr] at h
      have h2 : GenRes.ok (emit Instruction.Pop s1) = .ok s' := h
      injection h2 with h3
      subst h3
      exact ExtOk_trans s s1 _ (he s s1 hr) (ExtOk_emit s1 Instruction.Pop rfl)
  case refine_3 =>
    intro l loc hl s s' h
    rw [genNode_block] at h
    exact genSeq_ext l hl s s' h
  case refine_4 =>
    intro cnd tb eb loc hcnd htb heb s s' h
    rw [genNode_if] at h
    cases hr : genNode cnd s with
    | err er s1 => rw [hr] at h; cases h
    | ok s1 =>
      rw [hr] at h
      have h1 : (match genNode tb (emit (Instruction.JumpIfFalse 0) s1) with
        | GenRes.err e s3 => GenRes.err e s3
        | GenRes.ok s3 => genIfEnd eb s1.current_instructions.length s3) =
          GenRes.ok s' := h
      cases hb : genNode tb (emit (Instruction.JumpIfFalse 0) s1) with
      | err er s3 => rw [hb] at h1; cases h1
      | ok s3 =>
        rw [hb] at h1
        have h2 : genIfEnd eb s1.current_instructions.length s3 = .ok s' := h1
        obtain ⟨⟨A, hA1, hA2⟩, hfA⟩ := hcnd s s1 hr
        obtain ⟨⟨B, hB1, hB2⟩, hfB⟩ := htb (emit (Instruction.JumpIfFalse 0) s1) s3 hb
        have hc3 : s3.current_instructions =
            (s.current_instructions ++ A) ++ Instruction.JumpIfFalse 0 :: B := by
          rw [hB1]
          show (s1.current_instructions ++ [Instruction.JumpIfFalse 0]) ++ B = _
          rw [hA1]
          simp
        have hlen1 : s1.current_instructions.length =
            (s.current_instructions ++ A).length := by rw [hA1]
        have hB2b : SC (s.current_instructions.length + A.length + 1) B := by
          have hl2 : (emit (Instruction.JumpIfFalse 0) s1).current_instructions.length =
              s.current_instructions.length + A.length + 1 := by
            show (s1.current_instructions ++ [Instruction.JumpIfFalse 0]).length = _
            rw [hA1]
            simp
            omega
          exact hl2 ▸ hB2
        cases eb with
        | none =>
          rw [genIfEnd_none] at h2
          injection h2 with h3
          subst h3
          refine ⟨⟨A ++ Instruction.JumpIfFalse s3.current_instructions.length ::
            (B ++ [Instruction.Label s3.current_instructions.length]), ?_, ?_⟩, ?_⟩
          · show (s3.current_instructions.set s1.current_instructions.length
              (Instruction.JumpIfFalse s3.current_instructions.length)) ++
                [Instruction.Label s3.current_instructions.length] = _
            rw [hlen1, hc3, set_len_append]
            simp
          · have he2 : s3.current_instructions.length =
                s.current_instructions.length + A.length + 1 + B.length := by
              rw [hc3]; simp; omega
            rw [he2]
            exact SC_if_none _ A B _ (by omega) hA2 hB2b
          · exact fun hf => hfB (hfA hf)
        | some els =>
          rw [genIfEnd_some_eq] at h2
          cases hd : genNode els (emit (Instruction.Label (emit (Instruction.Jump 0) s3).current_instructions.length)
              (setInstr s1.current_instructions.length
                (Instruction.JumpIfFalse (emit (Instruction.Jump 0) s3).current_instructions.length)
                (emit (Instruction.Jump 0) s3))) with
          | err er s6 => rw [hd] at h2; cases h2
          | ok s6 =>
            rw [hd] at h2
            have h3 : GenRes.ok (emit (Instruction.Label s6.current_instructions.length)
                (setInstr s3.current_instructions.length
                  (Instruction.Jump s6.current_instructions.length) s6)) = .ok s' := h2
            injection h3 with h4
            subst h4
            obtain ⟨⟨D, hD1, hD2⟩, hfD⟩ := heb els rfl _ s6 hd
            have hL4 : (emit (Instruction.Jump 0) s3).current_instructions.length =
                s.current_instructions.length + A.length + B.length + 2 := by
              show (s3.current_instructions ++ [Instruction.Jump 0]).length = _
              rw [hc3]; simp; omega
            have hXcur : (emit (Instruction.Label (emit (Instruction.Jump 0) s3).current_instructions.length)
                (setInstr s1.current_instructions.length
                  (Instruction.JumpIfFalse (emit (Instruction.Jump 0) s3).current_instructions.length)
                  (emit (Instruction.Jump 0) s3))).current_instructions =
                (s.current_instructions ++ A) ++
                  Instruction.JumpIfFalse (emit (Instruction.Jump 0) s3).current_instructions.length ::
                    ((B ++ [Instruction.Jump 0]) ++
                      [Instruction.Label (emit (Instruction.Jump 0) s3).current_instructions.length]) := by
              show ((s3.current_instructions ++ [Instruction.Jump 0]).set
                  s1.current_instructions.length
                  (Instruction.JumpIfFalse (emit (Instruction.Jump 0) s3).current_instructions.length)) ++
                  [Instruction.Label (emit (Instruction.Jump 0) s3).current_instructions.length] = _
              rw [hc3, hlen1]
              rw [show ((s.current_instructions ++ A) ++ Instruction.JumpIfFalse 0 :: B) ++ [Instruction.Jump 0] =
                (s.current_instructions ++ A) ++ Instruction.JumpIfFalse 0 :: (B ++ [Instruction.Jump 0]) by simp]
              rw [set_len_append]
              simp
            have hs6 : s6.current_instructions =
                (s.current_instructions ++ A ++
                  Instruction.JumpIfFalse (emit (Instruction.Jump 0) s3).current_instructions.length ::
                    (B ++ [Instruction.Jump 0])) ++
                  Instruction.Label (emit (Instruction.Jump 0) s3).current_instructions.length :: D := by
              rw [hD1, hXcur]
              simp
            have hlen3 : s3.current_instructions.length =
                (s.current_instructions ++ A ++
                  Instruction.JumpIfFalse (emit (Instruction.Jump 0) s3).current_instructions.length ::
                    B).length := by
              rw [hc3]; simp
            have hs6b : s6.current_instructions =
                (s.current_instructions ++ A ++
                  Instruction.JumpIfFalse
                    (emit (Instruction.Jump 0) s3).current_instructions.length :: B) ++
                  Instruction.Jump 0 ::
                    (Instruction.Label
                      (emit (Instruction.Jump 0) s3).current_instructions.length :: D) := by
              rw [hs6]; simp
            have ha : s6.current_instructions.length =
                s.current_instructions.length + A.length + B.length + D.length + 3 := by
              rw [hs6b]; simp; omega
            have hD2b : SC (s.current_instructions.length + A.length + B.length + 3) D := by
              have hXl : (emit (Instruction.Label
                  (emit (Instruction.Jump 0) s3).current_instructions.length)
                  (setInstr s1.current_instructions.length
                    (Instruction.JumpIfFalse
                      (emit (Instruction.Jump 0) s3).current_instructions.length)
                    (emit (Instruction.Jump 0) s3))).current_instructions.length =
                  s.current_instructions.length + A.length + B.length + 3 := by
                rw [hXcur]; simp; omega
              exact hXl ▸ hD2
            refine ⟨⟨A ++ Instruction.JumpIfFalse
              (emit (Instruction.Jump 0) s3).current_instructions.length ::
              (B ++ Instruction.Jump s6.current_instructions.length ::
                (Instruction.Label
                  (emit (Instruction.Jump 0) s3).current_instructions.length ::
                  (D ++ [Instruction.Label s6.current_instructions.length]))), ?_, ?_⟩, ?_⟩
            · show (s6.current_instructions.set s3.current_instructions.length
                (Instruction.Jump s6.current_instructions.length)) ++
                  [Instruction.Label s6.current_instructions.length] = _
              rw [ha, hlen3, hs6b, set_len_append]
              simp
            · rw [hL4, ha]
              exact SC_if_some _ A B D _ _ (by omega) (by omega) hA2 hB2b hD2b
            · exact fun hf => hfD (hfB (hfA hf))
  case refine_5 =>
    intro c b loc hc hb s s' h
    rw [genNode_while] at h
    cases hr : genNode c (emit (.Label s.current_instructions.length) s) with
    | err er s2 => rw [hr] at h; cases h
    | ok s2 =>
      rw [hr] at h
      have h1 : (match genNode b (emit (Instruction.JumpIfFalse 0) s2) with
        | GenRes.err e s4 => GenRes.err e s4
        | GenRes.ok s4 =>
          GenRes.ok (emit (Instruction.Label
              (emit (Instruction.Jump s.current_instructions.length)
                s4).current_instructions.length)
            (setInstr s2.current_instructions.length
              (Instruction.JumpIfFalse
                (emit (Instruction.Jump s.current_instructions.length)
                  s4).current_instructions.length)
              (emit (Instruction.Jump s.current_instructions.length) s4)))) =
          GenRes.ok s' := h
      cases hb2 : genNode b (emit (Instruction.JumpIfFalse 0) s2) with
      | err er s4 => rw [hb2] at h1; cases h1
      | ok s4 =>
        rw [hb2] at h1
        injection h1 with h3
        subst h3
        obtain ⟨⟨A, hA1, hA2⟩, hfA⟩ := hc _ s2 hr
        obtain ⟨⟨B, hB1, hB2⟩, hfB⟩ := hb _ s4 hb2
        have hc2 : s2.current_instructions =
            s.current_instructions ++ Instruction.Label s.current_instructions.length :: A := by
          rw [hA1]
          show (s.current_instructions ++ [Instruction.Label s.current_instructions.length]) ++ A = _
          simp
        have hc4 : s4.current_instructions =
            (s.current_instructions ++
              Instruction.Label s.current_instructions.length :: A) ++
              Instruction.JumpIfFalse 0 :: B := by
          rw [hB1]
          show (s2.current_instructions ++ [Instruction.JumpIfFalse 0]) ++ B = _
          rw [hc2]
          simp
        have hlen2 : s2.current_instructions.length =
            (s.current_instructions ++
              Instruction.Label s.current_instructions.length :: A).length := by
          rw [hc2]
        have hc5 : (emit (Instruction.Jump s.current_instructions.length)
            s4).current_instructions =
            (s.current_instructions ++
              Instruction.Label s.current_instructions.length :: A) ++
              Instruction.JumpIfFalse 0 :: (B ++ [Instruction.Jump s.current_instructions.length]) := by
          show s4.current_instructions ++ [Instruction.Jump s.current_instructions.length] = _
          rw [hc4]
          simp
        have hal : (emit (Instruction.Jump s.current_instructions.length)
            s4).current_instructions.length =
            s.current_instructions.length + A.length + B.length + 3 := by
          rw [hc5]; simp; omega
        have hA2b : SC (s.current_instructions.length + 1) A := by
          have hl2 : (emit (.Label s.current_instructions.length)
              s).current_instructions.length = s.current_instructions.length + 1 := by
            show (s.current_instructions ++ [Instruction.Label s.current_instructions.length]).length = _
            simp
          exact hl2 ▸ hA2
        have hB2b : SC (s.current_instructions.length + A.length + 2) B := by
          have hl2 : (emit (Instruction.JumpIfFalse 0) s2).current_instructions.length =
              s.current_instructions.length + A.length + 2 := by
            show (s2.current_instructions ++ [Instruction.JumpIfFalse 0]).length = _
            rw [hc2]; simp; omega
          exact hl2 ▸ hB2
        refine ⟨⟨Instruction.Label s.current_instructions.length ::
          (A ++ Instruction.JumpIfFalse
            (emit (Instruction.Jump s.current_instructions.length)
              s4).current_instructions.length ::
            (B ++ [Instruction.Jump s.current_instructions.length,
              Instruction.Label
                (emit (Instruction.Jump s.current_instructions.length)
                  s4).current_instructions.length])), ?_, ?_⟩, ?_⟩
        · show ((emit (Instruction.Jump s.current_instructions.length)
              s4).current_instructions.set s2.current_instructions.length
              (Instruction.JumpIfFalse
                (emit (Instruction.Jump s.current_instructions.length)
                  s4).current_instructions.length)) ++
              [Instruction.Label
                (emit (Instruction.Jump s.current_instructions.length)
                  s4).current_instructions.length] = _
          rw [hal, hlen2, hc5, set_len_append]
          simp
        · rw [hal]
          exact SC_loop _ A B _ rfl hA2b hB2b
        · exact fun hf => hfB (hfA hf)
  case refine_6 =>
    intro init cond incr b loc hinit hcond hincr hb s s' h
    rw [genNode_for] at h
    cases hr0 : genForInit init s with
    | err er s0 => rw [hr0] at h; cases h
    | ok s0 =>
      rw [hr0] at h
      have h1 : (match genForCond cond
          (emit (.Label s0.current_instructions.length) s0) with
        | GenRes.err e s2 => GenRes.err e s2
        | GenRes.ok s2 =>
          match genNode b (emit (Instruction.JumpIfFalse 0) s2) with
          | GenRes.err e s4 => GenRes.err e s4
          | GenRes.ok s4 =>
            match genForIncr incr s4 with
            | GenRes.err e s5 => GenRes.err e s5
            | GenRes.ok s5 =>
              GenRes.ok (emit (Instruction.Label
                  (emit (Instruction.Jump s0.current_instructions.length)
                    s5).current_instructions.length)
                (setInstr s2.current_instructions.length
                  (Instruction.JumpIfFalse
                    (emit (Instruction.Jump s0.current_instructions.length)
                      s5).current_instructions.length)
                  (emit (Instruction.Jump s0.current_instructions.length) s5)))) =
          GenRes.ok s' := h
      cases hr2 : genForCond cond (emit (.Label s0.current_instructions.length) s0) with
      | err er s2 => rw [hr2] at h1; cases h1
      | ok s2 =>
        rw [hr2] at h1
        have h1b : (match genNode b (emit (Instruction.JumpIfFalse 0) s2) with
          | GenRes.err e s4 => GenRes.err e s4
          | GenRes.ok s4 =>
            match genForIncr incr s4 with
            | GenRes.err e s5 => GenRes.err e s5
            | GenRes.ok s5 =>
              GenRes.ok (emit (Instruction.Label
                  (emit (Instruction.Jump s0.current_instructions.length)
                    s5).current_instructions.length)
                (setInstr s2.current_instructions.length
                  (Instruction.JumpIfFalse
                    (emit (Instruction.Jump s0.current_instructions.length)
                      s5).current_instructions.length)
                  (emit (Instruction.Jump s0.current_instructions.length) s5)))) =
            GenRes.ok s' := h1
        cases hr4 : genNode b (emit (Instruction.JumpIfFalse 0) s2) with
        | err er s4 => rw [hr4] at h1b; cases h1b
        | ok s4 =>
          rw [hr4] at h1b
          have h1c : (match genForIncr incr s4 with
            | GenRes.err e s5 => GenRes.err e s5
            | GenRes.ok s5 =>
              GenRes.ok (emit (Instruction.Label
                  (emit (Instruction.Jump s0.current_instructions.length)
                    s5).current_instructions.length)
                (setInstr s2.current_instructions.length
                  (Instruction.JumpIfFalse
                    (emit (Instruction.Jump s0.current_instructions.length)
                      s5).current_instructions.length)
                  (emit (Instruction.Jump s0.current_instructions.length) s5)))) =
              GenRes.ok s' := h1b
          cases hr5 : genForIncr incr s4 with
          | err er s5 => rw [hr5] at h1c; cases h1c
          | ok s5 =>
            rw [hr5] at h1c
            injection h1c with h3
            subst h3
            obtain ⟨⟨A0, hA01, hA02⟩, hfA0⟩ := genForInit_ext init hinit s s0 hr0
            obtain ⟨⟨A1, hA11, hA12⟩, hfA1⟩ := genForCond_ext cond hcond _ s2 hr2
            obtain ⟨⟨B1, hB11, hB12⟩, hfB1⟩ := hb _ s4 hr4
            obtain ⟨⟨B2, hB21, hB22⟩, hfB2⟩ := genForIncr_ext incr hincr s4 s5 hr5
            have hl0 : s0.current_instructions.length =
                s.current_instructions.length + A0.length := by rw [hA01]; simp
            have hc2 : s2.current_instructions =
                (s.current_instructions ++ A0) ++
                  Instruction.Label s0.current_instructions.length :: A1 := by
              rw [hA11]
              show (s0.current_instructions ++
                [Instruction.Label s0.current_instructions.length]) ++ A1 = _
              rw [hA01]
              simp
            have hlen2 : s2.current_instructions.length =
                ((s.current_instructions ++ A0) ++
                  Instruction.Label s0.current_instructions.length :: A1).length := by
              rw [hc2]
            have hc4 : s4.current_instructions =
                ((s.current_instructions ++ A0) ++
                  Instruction.Label s0.current_instructions.length :: A1) ++
                  Instruction.JumpIfFalse 0 :: B1 := by
              rw [hB11]
              show (s2.current_instructions ++ [Instruction.JumpIfFalse 0]) ++ B1 = _
              rw [hc2]
              simp
            have hc5 : s5.current_instructions =
                ((s.current_instructions ++ A0) ++
                  Instruction.Label s0.current_instructions.length :: A1) ++
                  Instruction.JumpIfFalse 0 :: (B1 ++ B2) := by
              rw [hB21, hc4]
              simp
            have hc6 : (emit (Instruction.Jump s0.current_instructions.length)
                s5).current_instructions =
                ((s.current_instructions ++ A0) ++
                  Instruction.Label s0.current_instructions.length :: A1) ++
                  Instruction.JumpIfFalse 0 ::
                    ((B1 ++ B2) ++ [Instruction.Jump s0.current_instructions.length]) := by
              show s5.current_instructions ++
                [Instruction.Jump s0.current_instructions.length] = _
              rw [hc5]
              simp
            have hal : (emit (Instruction.Jump s0.current_instructions.length)
                s5).current_instructions.length =
                s.current_instructions.length + A0.length + A1.length +
                  (B1.length + B2.length) + 3 := by
              rw [hc6]; simp; omega
            have hA12b : SC (s.current_instructions.length + A0.length + 1) A1 := by
              have hl2 : (emit (.Label s0.current_instructions.length)
                  s0).current_instructions.length =
                  s.current_instructions.length + A0.length + 1 := by
                show (s0.current_instructions ++
                  [Instruction.Label s0.current_instructions.length]).length = _
                rw [hA01]; simp; omega
              exact hl2 ▸ hA12
            have hB12b : SC (s.current_instructions.length + A0.length +
                A1.length + 2) B1 := by
              have hl2 : (emit (Instruction.JumpIfFalse 0) s2).current_instructions.length =
                  s.current_instructions.length + A0.length + A1.length + 2 := by
                show (s2.current_instructions ++ [Instruction.JumpIfFalse 0]).length = _
                rw [hc2]; simp; omega
              exact hl2 ▸ hB12
            have hB22b : SC (s.current_instructions.length + A0.length +
                A1.length + 2 + B1.length) B2 := by
              have hl2 : s4.current_instructions.length =
                  s.current_instructions.length + A0.length + A1.length + 2 +
                    B1.length := by
                rw [hc4]; simp; omega
              exact hl2 ▸ hB22
            refine ⟨⟨A0 ++ (Instruction.Label s0.current_instructions.length ::
              (A1 ++ Instruction.JumpIfFalse
                (emit (Instruction.Jump s0.current_instructions.length)
                  s5).current_instructions.length ::
                ((B1 ++ B2) ++ [Instruction.Jump s0.current_instructions.length,
                  Instruction.Label
                    (emit (Instruction.Jump s0.current_instructions.length)
                      s5).current_instructions.length]))), ?_, ?_⟩, ?_⟩
            · show ((emit (Instruction.Jump s0.current_instructions.length)
                  s5).current_instructions.set s2.current_instructions.length
                  (Instruction.JumpIfFalse
                    (emit (Instruction.Jump s0.current_instructions.length)
                      s5).current_instructions.length)) ++
                  [Instruction.Label
                    (emit (Instruction.Jump s0.current_instructions.length)
                      s5).current_instructions.length] = _
              rw [hal, hlen2, hc6, set_len_append]
              simp
            · refine SC_append _ A0 _ hA02 ?_
              rw [hal, hl0]
              have hloop := SC_loop (s.current_instructions.length + A0.length)
                A1 (B1 ++ B2) (s.current_instructions.length + A0.length +
                  A1.length + (B1.length + B2.length) + 3)
                (by simp; try omega)
                (hA12b)
                (by refine SC_append _ B1 B2 hB12b ?_
                    have he : s.current_instructions.length + A0.length +
                        A1.length + 2 + B1.length =
                        s.current_instructions.length + A0.length +
                          A1.length + 2 + B1.length := rfl
                    exact hB22b)
              exact hloop
            · exact fun hf => hfB2 (hfB1 (hfA1 (hfA0 hf)))
  case refine_7 =>
    intro a vv kv b loc ha hb s s' h
    rw [genNode_foreach] at h
    cases hr : genNode a s with
    | err er s1 => rw [hr] at h; cases h
    | ok s1 =>
      rw [hr] at h
      have h2 : GenRes.err (.CodeGenError "Foreach loops are not fully implemented yet") s1 =
          GenRes.ok s' := h
      cases h2
  case refine_8 =>
    intro v loc hv s s' h
    rw [genNode_returnStmt] at h
    cases hr : genRetVal v s with
    | err er s1 => rw [hr] at h; cases h
    | ok s1 =>
      rw [hr] at h
      have h2 : GenRes.ok (emit .Return s1) = .ok s' := h
      injection h2 with h3
      subst h3
      exact ExtOk_trans s s1 _ (genRetVal_ext v hv s s1 hr) (ExtOk_emit s1 .Return rfl)
  case refine_9 =>
    intro l loc hl s s' h
    rw [genNode_echo] at h
    exact genEchoArgs_ext l hl s s' h
  case refine_10 =>
    intro nm i loc hi s s' h
    cases i with
    | none =>
      rw [genNode_varDecl_none] at h
      injection h with h1
      subst h1
      exact ExtOk_trans s _ _ (ExtOk_emit s .PushNull rfl)
        (ExtOk_emit _ (.StoreVar nm) rfl)
    | some x =>
      rw [genNode_varDecl_some] at h
      cases hr : genNode x s with
      | err er s1 => rw [hr] at h; cases h
      | ok s1 =>
        rw [hr] at h
        have h2 : GenRes.ok (emit (.StoreVar nm) s1) = .ok s' := h
        injection h2 with h3
        subst h3
        exact ExtOk_trans s s1 _ (hi x rfl s s1 hr) (ExtOk_emit s1 (.StoreVar nm) rfl)
  case refine_11 =>
    intro nm ps b loc hb s s' h
    rw [genNode_funcDecl] at h
    cases hr : genNode b { s with current_instructions := [] } with
    | err er s2 => rw [hr] at h; cases h
    | ok s2 =>
      rw [hr] at h
      injection h with h3
      subst h3
      obtain ⟨⟨I, hI1, hI2⟩, hfI⟩ := hb _ s2 hr
      have hI1b : s2.current_instructions = I := by
        rw [hI1]; simp
      have hI2b : SC 0 I := hI2
      refine ⟨⟨[], by simp, SC_nil _⟩, ?_⟩
      intro hf
      intro p hp
      rw [List.mem_cons] at hp
      cases hp with
      | inl hp1 =>
        subst hp1
        show SC 0 (if s2.current_instructions.any isReturnInstr then
          s2.current_instructions else
          s2.current_instructions ++ [Instruction.PushNull, Instruction.Return])
        rw [hI1b]
        by_cases hany : I.any isReturnInstr
        · rw [if_pos hany]
          exact hI2b
        · rw [if_neg hany]
          refine SC_append 0 I [Instruction.PushNull, Instruction.Return] hI2b ?_
          refine SC_noTarget _ _ ?_
          intro j hj
          simp at hj
          rcases hj with h1 | h1 <;> subst h1 <;> rfl
      | inr hp2 =>
        exact hfI hf p hp2
  case refine_12 =>
    intro op l r loc hl hr' s s' h
    by_cases hop : op = .Assign
    · subst hop
      rw [genNode_assign] at h
      cases ht : assignTarget l with
      | none => rw [ht] at h; cases h
      | some name =>
        rw [ht] at h
        cases hg : genNode r s with
        | err er s1 => rw [hg] at h; cases h
        | ok s1 =>
          rw [hg] at h
          have h2 : GenRes.ok (emit (.LoadVar name) (emit (.StoreVar name) s1)) =
              .ok s' := h
          injection h2 with h3
          subst h3
          exact ExtOk_trans s s1 _ (hr' s s1 hg)
            (ExtOk_trans s1 _ _ (ExtOk_emit s1 (.StoreVar name) rfl)
              (ExtOk_emit _ (.LoadVar name) rfl))
    · rw [genNode_binary op l r loc s hop] at h
      cases hg : genNode l s with
      | err er s1 => rw [hg] at h; cases h
      | ok s1 =>
        rw [hg] at h
        have h1 : (match genNode r s1 with
          | GenRes.err e s2 => GenRes.err e s2
          | GenRes.ok s2 => GenRes.ok (emit (binOpInstr op) s2)) = GenRes.ok s' := h
        cases hg2 : genNode r s1 with
        | err er s2 => rw [hg2] at h1; cases h1
        | ok s2 =>
          rw [hg2] at h1
          injection h1 with h3
          subst h3
          refine ExtOk_trans s s1 _ (hl s s1 hg)
            (ExtOk_trans s1 s2 _ (hr' s1 s2 hg2)
              (ExtOk_emit s2 (binOpInstr op) ?_))
          cases op <;> rfl
  case refine_13 =>
    intro op e loc he s s' h
    rw [genNode_unary] at h
    cases hg : genNode e s with
    | err er s1 => rw [hg] at h; cases h
    | ok s1 =>
      rw [hg] at h
      cases op with
      | Negate =>
        have h2 : GenRes.ok (emit .Negate s1) = .ok s' := h
        injection h2 with h3
        subst h3
        exact ExtOk_trans s s1 _ (he s s1 hg) (ExtOk_emit s1 .Negate rfl)
      | LogicalNot =>
        have h2 : GenRes.ok (emit .LogicalNot s1) = .ok s' := h
        injection h2 with h3
        subst h3
        exact ExtOk_trans s s1 _ (he s s1 hg) (ExtOk_emit s1 .LogicalNot rfl)
  case refine_14 =>
    intro nm loc s s' h
    rw [genNode_variable] at h
    injection h with h1
    subst h1
    exact ExtOk_emit s (.LoadVar nm) rfl
  case refine_15 =>
    intro nm args loc hargs s s' h
    rw [genNode_call] at h
    cases hr : genArgsRev args s with
    | err er s1 => rw [hr] at h; cases h
    | ok s1 =>
      rw [hr] at h
      have h2 : GenRes.ok (emit (.Call nm args.length) s1) = .ok s' := h
      injection h2 with h3
      subst h3
      exact ExtOk_trans s s1 _ (genArgsRev_ext args hargs s s1 hr)
        (ExtOk_emit s1 (.Call nm args.length) rfl)
  case refine_16 =>
    intro v loc s s' h
    rw [genNode_intLit] at h
    injection h with h1
    subst h1
    exact ExtOk_emit s (.PushInt v) rfl
  case refine_17 =>
    intro v loc s s' h
    rw [genNode_floatLit] at h
    injection h with h1
    subst h1
    exact ExtOk_emit s (.PushFloat v) rfl
  case refine_18 =>
    intro v loc s s' h
    rw [genNode_strLit] at h
    injection h with h1
    subst h1
    exact ExtOk_emit s (.PushString v) rfl
  case refine_19 =>
    intro v loc s s' h
    rw [genNode_boolLit] at h
    injection h with h1
    subst h1
    exact ExtOk_emit s (.PushBool v) rfl
  case refine_20 =>
    intro loc s s' h
    rw [genNode_nullLit] at h
    injection h with h1
    subst h1
    exact ExtOk_emit s .PushNull rfl
  case refine_21 =>
    intro els loc hels s s' h
    rw [genNode_arrayLit] at h
    exact ExtOk_trans s _ _ (ExtOk_emit s .CreateArray rfl)
      (genElems_ext els hels _ s' h)

theorem jtOk_of_SC (d : List Instruction) (h : SC 0 d) : jtOk d = true := by
  refine List.all_eq_true.mpr ?_
  intro i hi
  cases ht : targetOf i with
  | none => rfl
  | some t =>
    obtain ⟨p, hplt, hpe⟩ := List.mem_iff_getElem.mp hi
    have hp : d[p]? = some i := by rw [List.getElem?_eq_getElem hplt, hpe]
    obtain ⟨hb, hL⟩ := h p t i hp ht
    rw [Nat.sub_zero] at hL
    simp [hL]

theorem lookupA_mem {α : Type} (k : String) (l : List (String × α)) (v : α)
    (h : lookupA k l = some v) : (k, v) ∈ l := by
  induction l with
  | nil => cases h
  | cons p rest ih =>
    rcases p with ⟨k', v'⟩
    by_cases hk : k' = k
    · have h2 : some v' = some v := by rw [← h]; simp [lookupA, hk]
      injection h2 with h3
      subst h3
      subst hk
      exact List.mem_cons_self _ _
    · have h2 : lookupA k rest = some v := by rw [← h]; simp [lookupA, hk]
      exact List.mem_cons_of_mem _ (ih h2)

/-- C1: on success of the fresh-generator pipeline, every jump instruction in
the returned sequence, and in each stored function's own sequence, targets the
index of a `Label` carrying that same index inside the same sequence (or the
one-past-end index). -/
theorem c1_jump_targets (n : Node) (out : List Instruction) (g' : CodeGenerator)
    (h : CodeGenerator.new.generate n = .ok out g') :
    jtOk out = true ∧
    ∀ nm f, lookupA nm g'.functions = some f → jtOk f.instructions = true := by
  have h1 : (match genNode n { CodeGenerator.new with current_instructions := [] } with
    | GenRes.ok g1 => GenerateRes.ok g1.current_instructions g1
    | GenRes.err e g1 => GenerateRes.err e g1) = .ok out g' := h
  cases hg : genNode n { CodeGenerator.new with current_instructions := [] } with
  | err e g1 => rw [hg] at h1; cases h1
  | ok g1 =>
    rw [hg] at h1
    injection h1 with ho hg'
    subst hg'
    obtain ⟨⟨D, hD1, hD2⟩, hf⟩ := genNode_extOk n _ g1 hg
    constructor
    · have hcur : g1.current_instructions = D := by rw [hD1]; simp
      rw [← ho, hcur]
      exact jtOk_of_SC D hD2
    · intro nm f hlf
      have hfs : funcsSC g1.functions := by
        refine hf ?_
        intro p hp
        exact absurd hp (List.not_mem_nil p)
      exact jtOk_of_SC _ (hfs (nm, f) (lookupA_mem nm g1.functions f hlf))


theorem c1_jump_targets_witness :
    jtOk [Instruction.Label 0, Instruction.PushBool true, Instruction.JumpIfFalse 6,
      Instruction.PushInt 3, Instruction.Pop, Instruction.Jump 0,
      Instruction.Label 6] = true ∧
    jtOk [Instruction.PushBool true, Instruction.JumpIfFalse 5, Instruction.PushInt 1,
      Instruction.Pop, Instruction.Jump 8, Instruction.Label 5, Instruction.PushInt 2,
      Instruction.Pop, Instruction.Label 8, Instruction.PushNull,
      Instruction.Return] = true := by
  have h := c1_jump_targets (Node.Program [
    .FunctionDecl "f" [] (.IfStmt (.BooleanLiteral true L0)
        (.ExpressionStmt (.IntLiteral 1 L0))
        (some (.ExpressionStmt (.IntLiteral 2 L0))) L0) L0,
    .WhileStmt (.BooleanLiteral true L0) (.ExpressionStmt (.IntLiteral 3 L0)) L0])
    [Instruction.Label 0, Instruction.PushBool true, Instruction.JumpIfFalse 6,
      Instruction.PushInt 3, Instruction.Pop, Instruction.Jump 0, Instruction.Label 6]
    { functions := [("f",
        { name := "f"
          param_count := 0
          instructions := [Instruction.PushBool true, Instruction.JumpIfFalse 5,
            Instruction.PushInt 1, Instruction.Pop, Instruction.Jump 8,
            Instruction.Label 5, Instruction.PushInt 2, Instruction.Pop,
            Instruction.Label 8, Instruction.PushNull, Instruction.Return] })]
      current_instructions := [Instruction.Label 0, Instruction.PushBool true,
        Instruction.JumpIfFalse 6, Instruction.PushInt 3, Instruction.Pop,
        Instruction.Jump 0, Instruction.Label 6] }
    (by decide)
  exact ⟨h.1, h.2 "f"
    { name := "f"
      param_count := 0
      instructions := [Instruction.PushBool true, Instruction.JumpIfFalse 5,
        Instruction.PushInt 1, Instruction.Pop, Instruction.Jump 8,
        Instruction.Label 5, Instruction.PushInt 2, Instruction.Pop,
        Instruction.Label 8, Instruction.PushNull, Instruction.Return] }
    (by decide)⟩
